import Mathlib

/-!
# SSDP raw search (`ssdp/ssdp.go`)

A shallow embedding of `SSDPRawSearch`: the request it builds, the single call
it makes to the HTTPU transport, and the background worker that filters and
deduplicates the transport's replies onto the output channel.

Modelling choices.
* Go `int` and `time.Duration` are 64-bit signed integers: values are `Int`,
  and arithmetic that can overflow is wrapped by `wrapInt64`.
* `http.Header` (a `map[string][]string`) and `map[string]bool` are association
  lists with map semantics (`Header.Get`, `SeenMap.has`, `SeenMap.set`).
* The channel `allResponses` is the finite list of replies the transport yields
  before it closes the channel; the channel `responses` is the list of replies
  sent on it so far, together with a `closed` flag.
* A send on `responses` is recorded when the goroutine performs it: the caller
  is taken to receive every reply the goroutine offers.
* The calls made on the transport are recorded in order (`SearchReturn.calls`).
* Library functions the source calls but does not define
  (`textproto.CanonicalMIMEHeaderKey`, URL parsing inside `Response.Location`,
  `URL.String`) are parameters, bundled in `Net`.
-/

namespace ssdp

/-! ## Constants -/

/-- The constant `ssdpDiscover`: the token with its double quotes. -/
def ssdpDiscover : String := "\"ssdp:discover\""

/-- The constant `ssdpUDP4Addr`. -/
def ssdpUDP4Addr : String := "239.255.255.250:1900"

/-- The constant `methodSearch`. -/
def methodSearch : String := "M-SEARCH"

/-- Nanoseconds in `time.Second`. -/
def Second : Int := 1000000000

/-- Nanoseconds in `time.Millisecond`. -/
def Millisecond : Int := 1000000

/-! ## Machine integers -/

/-- Two's-complement wrap of an integer into the signed 64-bit range. -/
def wrapInt64 (x : Int) : Int := (x + 2 ^ 63) % 2 ^ 64 - 2 ^ 63

/-- The values of a 64-bit Go `int`. -/
def isGoInt (x : Int) : Prop := -(2 ^ 63) ≤ x ∧ x < 2 ^ 63

instance (x : Int) : Decidable (isGoInt x) := by unfold isGoInt; infer_instance

/-- The function `strconv.FormatInt(i, 10)`: decimal digits, with a leading minus
sign for negative values. -/
def FormatInt (i : Int) : String :=
  if i < 0 then "-" ++ Nat.repr i.natAbs else Nat.repr i.natAbs

/-- The number written by a list of decimal digit characters. -/
def decimalValue (cs : List Char) : Nat :=
  cs.foldl (fun acc c => 10 * acc + (c.toNat - 48)) 0

/-! ## HTTP data -/

/-- The type `http.Header`: keys with their value lists. -/
abbrev Header := List (String × List String)

/-- The fields of `url.URL` that the search touches. -/
structure URL where
  Scheme : String := ""
  Opaque : String := ""
  Host : String := ""
  Path : String := ""
  RawQuery : String := ""
  Fragment : String := ""
deriving DecidableEq, Repr

/-- The fields of `http.Request` that the search sets. -/
structure Request where
  Method : String
  Host : String
  URL : URL
  Header : Header
deriving DecidableEq, Repr

/-- The fields of `http.Response` that the search reads. -/
structure Response where
  Status : String
  StatusCode : Int
  Header : Header
deriving DecidableEq, Repr

/-- Library functions used by the search, taken as parameters. -/
structure Net where
  /-- The function `textproto.CanonicalMIMEHeaderKey`. -/
  canonicalMIMEHeaderKey : String → String
  /-- The URL parsing step of `Response.Location`, applied to a non-empty
  `Location` header value of the given response. -/
  parseLocation : Response → String → Except String URL
  /-- The method `URL.String`. -/
  urlString : URL → String

/-- The method `Header.Get`: the first value stored under the canonical form of
`key`, or the empty string when there is none. -/
def Header.Get (L : Net) (h : Header) (key : String) : String :=
  match h.lookup (L.canonicalMIMEHeaderKey key) with
  | some (v :: _) => v
  | _ => ""

/-- The error `http.ErrNoLocation`. -/
def ErrNoLocation : String := "http: no Location header in response"

/-- The method `Response.Location`. -/
def Response.Location (L : Net) (r : Response) : Except String URL :=
  let lv := Header.Get L r.Header "Location"
  if lv = "" then .error ErrNoLocation else L.parseLocation r lv

/-! ## The seen set -/

/-- The map `seenUsns`, of type `map[string]bool`. -/
abbrev SeenMap := List (String × Bool)

/-- The comma-ok lookup `_, ok := m[k]`: whether `k` is a key of `m`. -/
def SeenMap.has (m : SeenMap) (k : String) : Bool := (m.lookup k).isSome

/-- The assignment `m[k] = v`. -/
def SeenMap.set (m : SeenMap) (k : String) (v : Bool) : SeenMap :=
  (k, v) :: m.filter (fun e => e.1 != k)

/-! ## The transport -/

/-- One invocation of `HTTPUClient.Do`: the request, the timeout in nanoseconds
and the number of sends. -/
structure DoCall where
  req : Request
  timeout : Int
  numSends : Int
deriving DecidableEq, Repr

/-- The transport `httpu.HTTPUClient`: `Do` either fails or yields the replies
received before its deadline. -/
structure HTTPUClient where
  Do : Request → Int → Int → Except String (List Response)

/-! ## The background worker -/

/-- Lines written with `log.Printf` by the worker. -/
inductive LogEntry where
  | badStatus (status : String)
  | badSearchTarget (st : String)
  | noLocation (err : String)
  | missingUSN
deriving DecidableEq, Repr

/-- Effect of one iteration of the `for response := range allResponses` loop. -/
structure Iteration where
  seenUsns : SeenMap
  sent : Option Response
  log : List LogEntry
deriving DecidableEq, Repr

/-- The body of the loop, for one reply. -/
def loopBody (L : Net) (searchTarget : String) (seenUsns : SeenMap) (response : Response) :
    Iteration :=
  if response.StatusCode ≠ 200 then
    ⟨seenUsns, none, [.badStatus response.Status]⟩
  else
    let st := Header.Get L response.Header "ST"
    if st ≠ searchTarget then
      ⟨seenUsns, none, [.badSearchTarget st]⟩
    else
      match response.Location L with
      | .error err => ⟨seenUsns, none, [.noLocation err]⟩
      | .ok location =>
        let usn := Header.Get L response.Header "USN"
        let (usn, lg) :=
          if usn = "" then (L.urlString location, [LogEntry.missingUSN]) else (usn, [])
        if ¬ seenUsns.has usn then
          ⟨seenUsns.set usn true, some response, lg⟩
        else
          ⟨seenUsns, none, lg⟩

/-- State of the goroutine started by `SSDPRawSearch`. -/
structure Worker where
  /-- Replies still to be received from the transport's channel. -/
  allResponses : List Response
  seenUsns : SeenMap
  /-- Replies sent on the output channel so far, oldest first. -/
  responses : List Response
  /-- Whether the output channel has been closed. -/
  closed : Bool
  log : List LogEntry
deriving DecidableEq, Repr

/-- One step of the goroutine: receive and process the next reply, or, once the
transport's channel is closed and drained, leave the loop and run the deferred
`close(responses)`. -/
def Worker.step (L : Net) (searchTarget : String) (w : Worker) : Worker :=
  match w.allResponses with
  | [] => { w with closed := true }
  | response :: rest =>
    let it := loopBody L searchTarget w.seenUsns response
    { allResponses := rest
      seenUsns := it.seenUsns
      responses := w.responses ++ it.sent.toList
      closed := w.closed
      log := w.log ++ it.log }

/-- The goroutine after `n` steps. -/
def Worker.steps (L : Net) (searchTarget : String) : Nat → Worker → Worker
  | 0, w => w
  | n + 1, w => Worker.steps L searchTarget n (w.step L searchTarget)

/-- The goroutine run to completion: one step for each reply of the transport,
and one more for the close. -/
def Worker.run (L : Net) (searchTarget : String) (w : Worker) : Worker :=
  Worker.steps L searchTarget (w.allResponses.length + 1) w

/-! ## The search -/

/-- What a call of `SSDPRawSearch` does and returns. -/
structure SearchReturn where
  /-- The invocations of `httpu.Do` made by the call, in order. -/
  calls : List DoCall
  /-- The returned pair: the error, or the output channel, given by the
  goroutine that feeds it. -/
  ret : Except String Worker

/-- The request built by `SSDPRawSearch`. -/
def searchRequest (searchTarget : String) (maxWaitSeconds : Int) : Request :=
  { Method := methodSearch
    Host := ssdpUDP4Addr
    URL := { Opaque := "*" }
    Header :=
      [ ("HOST", [ssdpUDP4Addr]),
        ("MX", [FormatInt (wrapInt64 maxWaitSeconds)]),
        ("MAN", [ssdpDiscover]),
        ("ST", [searchTarget]) ] }

/-- The timeout `time.Duration(maxWaitSeconds)*time.Second + 100*time.Millisecond`,
in 64-bit nanoseconds. -/
def searchTimeout (maxWaitSeconds : Int) : Int :=
  wrapInt64 (wrapInt64 (wrapInt64 maxWaitSeconds * Second) + 100 * Millisecond)

/-- The function `SSDPRawSearch`. -/
def SSDPRawSearch (httpu : HTTPUClient) (searchTarget : String) (maxWaitSeconds : Int)
    (numSends : Int) : SearchReturn :=
  if maxWaitSeconds < 1 then
    { calls := [], ret := .error "ssdp: maxWaitSeconds must be >= 1" }
  else
    let req := searchRequest searchTarget maxWaitSeconds
    let timeout := searchTimeout maxWaitSeconds
    match httpu.Do req timeout numSends with
    | .error err => { calls := [⟨req, timeout, numSends⟩], ret := .error err }
    | .ok allResponses =>
      { calls := [⟨req, timeout, numSends⟩]
        ret := .ok
          { allResponses := allResponses
            seenUsns := []
            responses := []
            closed := false
            log := [] } }

/-- The replies delivered on the output channel of a call, once the goroutine
has finished; `none` when the call returned an error. -/
def SearchReturn.output (L : Net) (searchTarget : String) (s : SearchReturn) :
    Option (List Response) :=
  match s.ret with
  | .error _ => none
  | .ok w => some (w.run L searchTarget).responses

/-- The replies the goroutine delivers when the transport yields `raw`. -/
def delivered (L : Net) (searchTarget : String) (raw : List Response) : List Response :=
  (Worker.run L searchTarget
    { allResponses := raw, seenUsns := [], responses := [], closed := false, log := [] }).responses

/-! ## Vocabulary for the properties -/

/-- Whether `Response.Location` returns a URL and no error. -/
def locationResolves (L : Net) (r : Response) : Bool :=
  match r.Location L with
  | .ok _ => true
  | .error _ => false

/-- The three validations of the loop body: status 200, `ST` equal to the
search target, and a `Location` that resolves. -/
def passesValidation (L : Net) (searchTarget : String) (r : Response) : Prop :=
  r.StatusCode = 200 ∧ Header.Get L r.Header "ST" = searchTarget ∧ locationResolves L r = true

instance (L : Net) (searchTarget : String) (r : Response) :
    Decidable (passesValidation L searchTarget r) := by
  unfold passesValidation; infer_instance

/-- The identity of a reply for deduplication: its `USN` header when that is not
empty, otherwise the string form of its resolved `Location`; a reply whose
`Location` does not resolve and whose `USN` is empty has none. -/
def identity (L : Net) (r : Response) : Option String :=
  if Header.Get L r.Header "USN" ≠ "" then some (Header.Get L r.Header "USN")
  else
    match r.Location L with
    | .ok location => some (L.urlString location)
    | .error _ => none

/-- Two replies share an identity in the sense of the specification: the same
non-empty `USN`, or an empty `USN` on both and the same resolved `Location`
string. -/
def sameIdentity (L : Net) (a b : Response) : Prop :=
  (Header.Get L a.Header "USN" ≠ "" ∧ Header.Get L a.Header "USN" = Header.Get L b.Header "USN") ∨
  (Header.Get L a.Header "USN" = "" ∧ Header.Get L b.Header "USN" = "" ∧
    ∃ la lb, a.Location L = .ok la ∧ b.Location L = .ok lb ∧ L.urlString la = L.urlString lb)

/-- The goroutine of a call whose transport yields `raw`, before its first step. -/
def spawn (raw : List Response) : Worker :=
  { allResponses := raw, seenUsns := [], responses := [], closed := false, log := [] }

/-- Whether the reply at position `i` of `raw` is sent on the output channel:
the goroutine is advanced by `i` steps, and the loop body is applied to the
reply it receives next. -/
def deliveredAt (L : Net) (searchTarget : String) (raw : List Response) (i : Nat) : Bool :=
  let w := Worker.steps L searchTarget i (spawn raw)
  match w.allResponses with
  | [] => false
  | response :: _ => (loopBody L searchTarget w.seenUsns response).sent.isSome

/-- The loop as a fold: the seen set and the replies sent after processing
`raw` from the seen set `seen`. -/
def collect (L : Net) (searchTarget : String) : SeenMap → List Response → SeenMap × List Response
  | seen, [] => (seen, [])
  | seen, response :: rest =>
    let it := loopBody L searchTarget seen response
    let (seen', out) := collect L searchTarget it.seenUsns rest
    (seen', it.sent.toList ++ out)

/-! ## A concrete library instance, for evaluating the model -/

/-- A stand-in for the library: header keys `ST` and `USN` are canonicalised as
Go does (`St`, `Usn`), a `Location` value parses when it starts with `http://`,
and the parsed URL prints back as written. -/
def sampleNet : Net where
  canonicalMIMEHeaderKey k := if k = "ST" then "St" else if k = "USN" then "Usn" else k
  parseLocation _ lv :=
    match lv.data with
    | 'h' :: 't' :: 't' :: 'p' :: ':' :: '/' :: '/' :: rest =>
      .ok { Scheme := "http", Host := String.mk rest }
    | _ => .error "parse error"
  urlString u := u.Scheme ++ "://" ++ u.Host ++ u.Path

/-- Like `sampleNet`, and parsing lower-cases the scheme as Go does: a `Location`
written with `HTTP://` resolves to the same URL as with `http://`. -/
def foldingNet : Net where
  canonicalMIMEHeaderKey k := if k = "ST" then "St" else if k = "USN" then "Usn" else k
  parseLocation _ lv :=
    match lv.data with
    | 'h' :: 't' :: 't' :: 'p' :: ':' :: '/' :: '/' :: rest =>
      .ok { Scheme := "http", Host := String.mk rest }
    | 'H' :: 'T' :: 'T' :: 'P' :: ':' :: '/' :: '/' :: rest =>
      .ok { Scheme := "http", Host := String.mk rest }
    | _ => .error "parse error"
  urlString u := u.Scheme ++ "://" ++ u.Host ++ u.Path

/-- A well-formed reply: status 200, the given `ST`, `USN` and `Location`. -/
def sampleReply (st usn loc : String) : Response :=
  { Status := "200 OK", StatusCode := 200
    Header := [("St", [st]), ("Usn", [usn]), ("Location", [loc])] }

/-- A reply without a `USN` header. -/
def sampleReplyNoUSN (st loc : String) : Response :=
  { Status := "200 OK", StatusCode := 200
    Header := [("St", [st]), ("Location", [loc])] }

/-- A reply with status 404. -/
def sampleReply404 (st usn loc : String) : Response :=
  { Status := "404 Not Found", StatusCode := 404
    Header := [("St", [st]), ("Usn", [usn]), ("Location", [loc])] }

/-- A valid reply, a 404, a reply for another search target and a reply whose
`Location` is empty. -/
def mixedReplies : List Response :=
  [sampleReply "t" "uuid:1" "http://a", sampleReply404 "t" "uuid:2" "http://b",
   sampleReply "other" "uuid:3" "http://c", sampleReply "t" "uuid:4" ""]

/-- A reply with status 200 and a `Location`, and neither `ST` nor `USN`. -/
def sampleReplyNoST (loc : String) : Response :=
  { Status := "200 OK", StatusCode := 200, Header := [("Location", [loc])] }

/-- A transport that yields the given replies. -/
def sampleTransport (raw : List Response) : HTTPUClient where
  Do _ _ _ := .ok raw

/-- A transport that fails to start. -/
def failingTransport (err : String) : HTTPUClient where
  Do _ _ _ := .error err

end ssdp

namespace ssdp

/-! ## The seen set as a map -/

theorem SeenMap.has_nil (k : String) : SeenMap.has [] k = false := rfl

theorem SeenMap.has_cons (m : SeenMap) (k k' : String) (v : Bool) :
    SeenMap.has ((k, v) :: m) k' = (k' == k || SeenMap.has m k') := by
  unfold SeenMap.has
  by_cases h : k' = k
  · subst h; simp [List.lookup]
  · have h' : (k' == k) = false := by simpa using h
    simp [List.lookup, h']

theorem SeenMap.has_filter (m : SeenMap) (k k' : String) (h : k' ≠ k) :
    SeenMap.has (m.filter (fun e => e.1 != k)) k' = SeenMap.has m k' := by
  induction m with
  | nil => rfl
  | cons e m ih =>
    obtain ⟨a, b⟩ := e
    by_cases ha : a = k
    · subst ha
      rw [List.filter_cons_of_neg (by simp), ih, SeenMap.has_cons]
      have h' : (k' == a) = false := by simpa using h
      simp [h']
    · rw [List.filter_cons_of_pos (by simpa using ha), SeenMap.has_cons, SeenMap.has_cons, ih]

/-- After `m[k] = v`, the keys are `k` and the keys of `m`. -/
theorem SeenMap.has_set (m : SeenMap) (k k' : String) (v : Bool) :
    SeenMap.has (m.set k v) k' = (k' == k || SeenMap.has m k') := by
  unfold SeenMap.set
  rw [SeenMap.has_cons]
  by_cases h : k' = k
  · subst h; simp
  · rw [SeenMap.has_filter m k k' h]

/-! ## The loop body -/

/-- A reply that passes validation has an identity. -/
theorem identity_of_passesValidation (L : Net) (st : String) (r : Response)
    (h : passesValidation L st r) : ∃ k, identity L r = some k := by
  obtain ⟨_, _, h3⟩ := h
  unfold locationResolves at h3
  unfold identity
  split
  · exact ⟨_, rfl⟩
  · split
    · exact ⟨_, rfl⟩
    · rename_i e he; rw [he] at h3; simp at h3

/-- A reply that fails validation is not sent and leaves the seen set as it was. -/
theorem loopBody_invalid (L : Net) (st : String) (seen : SeenMap) (r : Response)
    (h : ¬ passesValidation L st r) :
    (loopBody L st seen r).sent = none ∧ (loopBody L st seen r).seenUsns = seen := by
  unfold loopBody
  split
  · exact ⟨rfl, rfl⟩
  · rename_i h1
    simp only []
    split
    · exact ⟨rfl, rfl⟩
    · rename_i h2
      split
      · exact ⟨rfl, rfl⟩
      · rename_i loc hloc
        exfalso
        apply h
        refine ⟨by simpa using h1, by simpa using h2, ?_⟩
        unfold locationResolves
        rw [hloc]

/-- A valid reply whose identity is a key of the seen set is not sent and leaves
the seen set as it was. -/
theorem loopBody_seen (L : Net) (st : String) (seen : SeenMap) (r : Response) (k : String)
    (h : passesValidation L st r) (hk : identity L r = some k) (hs : seen.has k = true) :
    (loopBody L st seen r).sent = none ∧ (loopBody L st seen r).seenUsns = seen := by
  obtain ⟨h1, h2, h3⟩ := h
  unfold locationResolves at h3
  unfold identity at hk
  unfold loopBody
  rw [if_neg (by simpa using h1)]
  simp only []
  rw [if_neg (by simpa using h2)]
  split
  · rename_i e he; rw [he] at h3; simp at h3
  · rename_i loc hloc
    rw [hloc] at hk
    by_cases hu : Header.Get L r.Header "USN" = ""
    · simp only [hu, ne_eq, not_true_eq_false, if_false, Option.some.injEq] at hk
      subst hk
      simp [hu, hs]
    · simp only [ne_eq, hu, not_false_eq_true, if_true, Option.some.injEq] at hk
      subst hk
      simp [hu, hs]

/-- A valid reply whose identity is not a key of the seen set is sent, and its
identity is stored in the seen set. -/
theorem loopBody_fresh (L : Net) (st : String) (seen : SeenMap) (r : Response) (k : String)
    (h : passesValidation L st r) (hk : identity L r = some k) (hs : seen.has k = false) :
    (loopBody L st seen r).sent = some r ∧
      (loopBody L st seen r).seenUsns = seen.set k true := by
  obtain ⟨h1, h2, h3⟩ := h
  unfold locationResolves at h3
  unfold identity at hk
  unfold loopBody
  rw [if_neg (by simpa using h1)]
  simp only []
  rw [if_neg (by simpa using h2)]
  split
  · rename_i e he; rw [he] at h3; simp at h3
  · rename_i loc hloc
    rw [hloc] at hk
    by_cases hu : Header.Get L r.Header "USN" = ""
    · simp only [hu, ne_eq, not_true_eq_false, if_false, Option.some.injEq] at hk
      subst hk
      simp [hu, hs]
    · simp only [ne_eq, hu, not_false_eq_true, if_true, Option.some.injEq] at hk
      subst hk
      simp [hu, hs]

/-- The three cases of the loop body. -/
theorem loopBody_cases (L : Net) (st : String) (seen : SeenMap) (r : Response) :
    (¬ passesValidation L st r ∧
        (loopBody L st seen r).sent = none ∧ (loopBody L st seen r).seenUsns = seen) ∨
    (passesValidation L st r ∧ ∃ k, identity L r = some k ∧ seen.has k = true ∧
        (loopBody L st seen r).sent = none ∧ (loopBody L st seen r).seenUsns = seen) ∨
    (passesValidation L st r ∧ ∃ k, identity L r = some k ∧ seen.has k = false ∧
        (loopBody L st seen r).sent = some r ∧
        (loopBody L st seen r).seenUsns = seen.set k true) := by
  by_cases h : passesValidation L st r
  · obtain ⟨k, hk⟩ := identity_of_passesValidation L st r h
    cases hs : seen.has k
    · exact Or.inr (Or.inr ⟨h, k, hk, hs, loopBody_fresh L st seen r k h hk hs⟩)
    · exact Or.inr (Or.inl ⟨h, k, hk, hs, loopBody_seen L st seen r k h hk hs⟩)
  · exact Or.inl ⟨h, loopBody_invalid L st seen r h⟩

/-! ## The goroutine and the fold -/

theorem Worker.steps_succ (L : Net) (st : String) (n : Nat) (w : Worker) :
    Worker.steps L st (n + 1) w = (Worker.steps L st n w).step L st := by
  induction n generalizing w with
  | zero => rfl
  | succ n ih =>
    show Worker.steps L st (n + 1) (w.step L st) = _
    rw [ih]
    rfl

/-- After as many steps as there are replies in `xs`, a goroutine that still had
`xs ++ ys` to receive has sent what the fold sends on `xs`. -/
theorem Worker.steps_collect (L : Net) (st : String) (xs ys : List Response) (w : Worker)
    (hw : w.allResponses = xs ++ ys) :
    (Worker.steps L st xs.length w).allResponses = ys ∧
    (Worker.steps L st xs.length w).seenUsns = (collect L st w.seenUsns xs).1 ∧
    (Worker.steps L st xs.length w).responses = w.responses ++ (collect L st w.seenUsns xs).2 ∧
    (Worker.steps L st xs.length w).closed = w.closed := by
  induction xs generalizing w with
  | nil =>
    simp only [List.length_nil, Worker.steps, collect, List.append_nil, and_true, true_and]
    simpa using hw
  | cons x xs ih =>
    have hstep : w.step L st =
        { allResponses := xs ++ ys
          seenUsns := (loopBody L st w.seenUsns x).seenUsns
          responses := w.responses ++ (loopBody L st w.seenUsns x).sent.toList
          closed := w.closed
          log := w.log ++ (loopBody L st w.seenUsns x).log } := by
      unfold Worker.step
      rw [hw]
      rfl
    have h := ih (w.step L st) (by rw [hstep])
    show (Worker.steps L st xs.length (w.step L st)).allResponses = ys ∧ _
    obtain ⟨h1, h2, h3, h4⟩ := h
    refine ⟨h1, ?_, ?_, ?_⟩
    · show (Worker.steps L st xs.length (w.step L st)).seenUsns = _
      rw [h2, hstep]; simp [collect]
    · show (Worker.steps L st xs.length (w.step L st)).responses = _
      rw [h3, hstep]; simp [collect, List.append_assoc]
    · show (Worker.steps L st xs.length (w.step L st)).closed = _
      rw [h4, hstep]

/-- The replies delivered are those the fold sends from the empty seen set. -/
theorem delivered_eq_collect (L : Net) (st : String) (raw : List Response) :
    delivered L st raw = (collect L st [] raw).2 := by
  unfold delivered Worker.run
  have h := Worker.steps_collect L st raw []
    { allResponses := raw, seenUsns := [], responses := [], closed := false, log := [] }
    (by simp)
  obtain ⟨h1, _, h3, _⟩ := h
  rw [Worker.steps_succ]
  simp only at h1 h3 ⊢
  unfold Worker.step
  rw [h1]
  simp [h3]

/-- The goroutine ends with the output channel closed and nothing left to
receive. -/
theorem run_closed (L : Net) (st : String) (raw : List Response) :
    (Worker.run L st (spawn raw)).closed = true ∧
    (Worker.run L st (spawn raw)).allResponses = [] := by
  unfold Worker.run
  have h := Worker.steps_collect L st raw [] (spawn raw) (by simp [spawn])
  obtain ⟨h1, _, _, _⟩ := h
  rw [Worker.steps_succ]
  simp only [spawn] at h1 ⊢
  unfold Worker.step
  rw [h1]
  simp

/-- Position `i` is delivered exactly when the loop body, run from the seen set
that the fold leaves after the first `i` replies, sends the reply at `i`. -/
theorem deliveredAt_eq (L : Net) (st : String) (raw : List Response) (i : Nat) (r : Response)
    (hr : raw[i]? = some r) :
    deliveredAt L st raw i =
      (loopBody L st (collect L st [] (raw.take i)).1 r).sent.isSome := by
  have hi : i < raw.length := by
    rcases Nat.lt_or_ge i raw.length with h | h
    · exact h
    · rw [List.getElem?_eq_none h] at hr; simp at hr
  have hsplit : raw = raw.take i ++ r :: raw.drop (i + 1) := by
    have hget : raw[i] = r := by
      rw [List.getElem?_eq_getElem hi] at hr
      exact Option.some.inj hr
    rw [← hget, List.getElem_cons_drop raw i hi, List.take_append_drop]
  have hlen : (raw.take i).length = i := by simp [Nat.le_of_lt hi]
  have h := Worker.steps_collect L st (raw.take i) (r :: raw.drop (i + 1)) (spawn raw)
    (by simpa [spawn] using hsplit)
  rw [hlen] at h
  obtain ⟨h1, h2, _, _⟩ := h
  unfold deliveredAt
  simp only
  rw [h1, h2]
  rfl

/-- Beyond the end of the raw sequence nothing is delivered. -/
theorem deliveredAt_of_length_le (L : Net) (st : String) (raw : List Response) (i : Nat)
    (hi : raw.length ≤ i) : deliveredAt L st raw i = false := by
  obtain ⟨d, rfl⟩ := Nat.exists_eq_add_of_le hi
  have h := Worker.steps_collect L st raw [] (spawn raw) (by simp [spawn])
  obtain ⟨h1, _, _, _⟩ := h
  have hall : ∀ d, (Worker.steps L st (raw.length + d) (spawn raw)).allResponses = [] := by
    intro d
    induction d with
    | zero => exact h1
    | succ d ih =>
      rw [← Nat.add_assoc, Worker.steps_succ]
      unfold Worker.step
      rw [ih]
  unfold deliveredAt
  simp only
  rw [hall d]

/-! ## Properties of the fold -/

theorem collect_cons_fst (L : Net) (st : String) (seen : SeenMap) (x : Response)
    (xs : List Response) :
    (collect L st seen (x :: xs)).1 = (collect L st (loopBody L st seen x).seenUsns xs).1 := rfl

theorem collect_cons_snd (L : Net) (st : String) (seen : SeenMap) (x : Response)
    (xs : List Response) :
    (collect L st seen (x :: xs)).2 =
      (loopBody L st seen x).sent.toList ++ (collect L st (loopBody L st seen x).seenUsns xs).2 :=
  rfl

/-- A reply that is not sent is skipped by the fold. -/
theorem collect_cons_skip (L : Net) (st : String) (seen : SeenMap) (x : Response)
    (xs : List Response) (h1 : (loopBody L st seen x).sent = none)
    (h2 : (loopBody L st seen x).seenUsns = seen) :
    collect L st seen (x :: xs) = collect L st seen xs := by
  apply Prod.ext
  · rw [collect_cons_fst, h2]
  · rw [collect_cons_snd, h1, h2]; rfl

/-- A reply that is sent heads the output of the fold. -/
theorem collect_cons_send (L : Net) (st : String) (seen : SeenMap) (x : Response)
    (xs : List Response) (k : String) (h1 : (loopBody L st seen x).sent = some x)
    (h2 : (loopBody L st seen x).seenUsns = seen.set k true) :
    collect L st seen (x :: xs) =
      ((collect L st (seen.set k true) xs).1, x :: (collect L st (seen.set k true) xs).2) := by
  apply Prod.ext
  · rw [collect_cons_fst, h2]
  · rw [collect_cons_snd, h1, h2]; rfl

theorem collect_sublist (L : Net) (st : String) (seen : SeenMap) (raw : List Response) :
    List.Sublist (collect L st seen raw).2 raw := by
  induction raw generalizing seen with
  | nil => exact List.Sublist.slnil
  | cons x xs ih =>
    rcases loopBody_cases L st seen x with ⟨_, h1, h2⟩ | ⟨_, k, _, _, h1, h2⟩ | ⟨_, k, _, _, h1, h2⟩
    · rw [collect_cons_skip L st seen x xs h1 h2]; exact List.Sublist.cons x (ih seen)
    · rw [collect_cons_skip L st seen x xs h1 h2]; exact List.Sublist.cons x (ih seen)
    · rw [collect_cons_send L st seen x xs k h1 h2]; exact List.Sublist.cons₂ x (ih _)

/-- The keys of the seen set are never lost. -/
theorem collect_has_mono (L : Net) (st : String) (seen : SeenMap) (raw : List Response)
    (k : String) (h : seen.has k = true) : (collect L st seen raw).1.has k = true := by
  induction raw generalizing seen with
  | nil => exact h
  | cons x xs ih =>
    rcases loopBody_cases L st seen x with ⟨_, h1, h2⟩ | ⟨_, k', _, _, h1, h2⟩ | ⟨_, k', _, _, h1, h2⟩
    · rw [collect_cons_skip L st seen x xs h1 h2]; exact ih seen h
    · rw [collect_cons_skip L st seen x xs h1 h2]; exact ih seen h
    · rw [collect_cons_send L st seen x xs k' h1 h2]
      apply ih
      rw [SeenMap.has_set, h]; simp

/-- Every reply sent by the fold passes validation, and its identity was not a
key of the seen set the fold started from. -/
theorem collect_mem (L : Net) (st : String) (seen : SeenMap) (raw : List Response)
    (r : Response) (hr : r ∈ (collect L st seen raw).2) :
    passesValidation L st r ∧ ∃ k, identity L r = some k ∧ seen.has k = false := by
  induction raw generalizing seen with
  | nil => simp [collect] at hr
  | cons x xs ih =>
    rcases loopBody_cases L st seen x with ⟨_, h1, h2⟩ | ⟨_, k', _, _, h1, h2⟩ | ⟨hv, k', hk', hs, h1, h2⟩
    · rw [collect_cons_skip L st seen x xs h1 h2] at hr; exact ih seen hr
    · rw [collect_cons_skip L st seen x xs h1 h2] at hr; exact ih seen hr
    · rw [collect_cons_send L st seen x xs k' h1 h2] at hr
      rcases List.mem_cons.mp hr with rfl | hr'
      · exact ⟨hv, k', hk', hs⟩
      · obtain ⟨hv', k, hk, hs'⟩ := ih _ hr'
        refine ⟨hv', k, hk, ?_⟩
        rw [SeenMap.has_set] at hs'
        simp only [Bool.or_eq_false_iff] at hs'
        exact hs'.2

/-- The keys of the seen set after the fold are the keys it started with and
the identities of the replies it sent. -/
theorem collect_has (L : Net) (st : String) (seen : SeenMap) (raw : List Response)
    (k : String) :
    (collect L st seen raw).1.has k = true ↔
      seen.has k = true ∨ some k ∈ (collect L st seen raw).2.map (identity L) := by
  induction raw generalizing seen with
  | nil => simp [collect]
  | cons x xs ih =>
    rcases loopBody_cases L st seen x with ⟨_, h1, h2⟩ | ⟨_, k', _, _, h1, h2⟩ | ⟨hv, k', hk', hs, h1, h2⟩
    · rw [collect_cons_skip L st seen x xs h1 h2]; exact ih seen
    · rw [collect_cons_skip L st seen x xs h1 h2]; exact ih seen
    · rw [collect_cons_send L st seen x xs k' h1 h2]
      simp only [List.map_cons, List.mem_cons]
      rw [ih, SeenMap.has_set, hk']
      simp only [Bool.or_eq_true, beq_iff_eq, Option.some.injEq]
      tauto

/-- The replies sent by the fold have pairwise different identities. -/
theorem collect_nodup (L : Net) (st : String) (seen : SeenMap) (raw : List Response) :
    ((collect L st seen raw).2.map (identity L)).Nodup := by
  induction raw generalizing seen with
  | nil => simp [collect]
  | cons x xs ih =>
    rcases loopBody_cases L st seen x with ⟨_, h1, h2⟩ | ⟨_, k', _, _, h1, h2⟩ | ⟨hv, k', hk', hs, h1, h2⟩
    · rw [collect_cons_skip L st seen x xs h1 h2]; exact ih seen
    · rw [collect_cons_skip L st seen x xs h1 h2]; exact ih seen
    · rw [collect_cons_send L st seen x xs k' h1 h2]
      simp only [List.map_cons, List.nodup_cons]
      refine ⟨?_, ih _⟩
      intro hmem
      obtain ⟨r, hr, hrk⟩ := List.mem_map.mp hmem
      obtain ⟨_, k, hk, hsk⟩ := collect_mem L st _ xs r hr
      rw [hk', hk] at hrk
      have : k = k' := Option.some.inj hrk
      subst this
      rw [SeenMap.has_set] at hsk
      simp at hsk

/-- Replies that are valid and whose identity is already a key are all dropped. -/
theorem collect_replicate_seen (L : Net) (st : String) (seen : SeenMap) (r : Response)
    (k : String) (n : Nat) (hv : passesValidation L st r) (hk : identity L r = some k)
    (hs : seen.has k = true) : collect L st seen (List.replicate n r) = (seen, []) := by
  induction n with
  | zero => rfl
  | succ n ih =>
    obtain ⟨h1, h2⟩ := loopBody_seen L st seen r k hv hk hs
    rw [List.replicate_succ, collect_cons_skip L st seen r _ h1 h2, ih]

/-- The seen set after a concatenation is obtained by folding the second part
from the seen set left by the first. -/
theorem collect_append_fst (L : Net) (st : String) (seen : SeenMap) (xs ys : List Response) :
    (collect L st seen (xs ++ ys)).1 = (collect L st (collect L st seen xs).1 ys).1 := by
  induction xs generalizing seen with
  | nil => rfl
  | cons x xs ih =>
    rw [List.cons_append, collect_cons_fst, collect_cons_fst, ih]

/-- A key of the seen set after `i` replies is still a key after `j ≥ i` replies. -/
theorem collect_take_mono (L : Net) (st : String) (raw : List Response) (i j : Nat)
    (hij : i ≤ j) (k : String) (h : (collect L st [] (raw.take i)).1.has k = true) :
    (collect L st [] (raw.take j)).1.has k = true := by
  have hsplit : raw.take j = raw.take i ++ (raw.take j).drop i := by
    have := List.take_append_drop i (raw.take j)
    rw [List.take_take, Nat.min_eq_left hij] at this
    exact this.symm
  rw [hsplit, collect_append_fst]
  exact collect_has_mono L st _ _ k h

/-- After a valid reply has been processed its identity is a key of the seen
set, whether it was sent or dropped. -/
theorem loopBody_has_identity (L : Net) (st : String) (seen : SeenMap) (r : Response)
    (k : String) (hv : passesValidation L st r) (hk : identity L r = some k) :
    (loopBody L st seen r).seenUsns.has k = true := by
  cases hs : seen.has k
  · rw [(loopBody_fresh L st seen r k hv hk hs).2, SeenMap.has_set]; simp
  · rw [(loopBody_seen L st seen r k hv hk hs).2]; exact hs

/-- The seen set after `i + 1` replies is the loop body applied to reply `i`
from the seen set after `i` replies. -/
theorem collect_take_succ (L : Net) (st : String) (raw : List Response) (i : Nat)
    (r : Response) (hr : raw[i]? = some r) :
    (collect L st [] (raw.take (i + 1))).1 =
      (loopBody L st (collect L st [] (raw.take i)).1 r).seenUsns := by
  have hi : i < raw.length := by
    rcases Nat.lt_or_ge i raw.length with h | h
    · exact h
    · rw [List.getElem?_eq_none h] at hr; simp at hr
  have hget : raw[i] = r := by
    rw [List.getElem?_eq_getElem hi] at hr
    exact Option.some.inj hr
  rw [List.take_succ, hr, collect_append_fst]
  rfl

/-- A reply that is sent passes validation. -/
theorem passesValidation_of_sent (L : Net) (st : String) (seen : SeenMap) (r : Response)
    (h : (loopBody L st seen r).sent.isSome = true) : passesValidation L st r := by
  rcases loopBody_cases L st seen r with ⟨_, h1, _⟩ | ⟨hv, _⟩ | ⟨hv, _⟩
  · rw [h1] at h; simp at h
  · exact hv
  · exact hv

/-- Replies that share an identity in the sense of the specification have the
same deduplication key. -/
theorem identity_eq_of_sameIdentity (L : Net) (a b : Response) (ka kb : String)
    (h : sameIdentity L a b) (ha : identity L a = some ka) (hb : identity L b = some kb) :
    ka = kb := by
  unfold identity at ha hb
  rcases h with ⟨hne, heq⟩ | ⟨hea, heb, la, lb, hla, hlb, hstr⟩
  · have hneb : Header.Get L b.Header "USN" ≠ "" := by rw [← heq]; exact hne
    rw [if_pos hne] at ha
    rw [if_pos hneb] at hb
    rw [← Option.some.inj ha, ← Option.some.inj hb, heq]
  · rw [if_neg (by simpa using hea), hla] at ha
    rw [if_neg (by simpa using heb), hlb] at hb
    rw [← Option.some.inj ha, ← Option.some.inj hb, hstr]

/-- Once a valid reply has arrived, no later reply with the same key is sent. -/
theorem not_deliveredAt_after_valid (L : Net) (st : String) (raw : List Response) (i j : Nat)
    (a b : Response) (k : String) (hij : i < j) (ha : raw[i]? = some a) (hb : raw[j]? = some b)
    (hva : passesValidation L st a) (hka : identity L a = some k)
    (hkb : ∀ kb, identity L b = some kb → kb = k) :
    deliveredAt L st raw j = false := by
  rw [deliveredAt_eq L st raw j b hb]
  have hseen : (collect L st [] (raw.take j)).1.has k = true := by
    apply collect_take_mono L st raw (i + 1) j hij
    rw [collect_take_succ L st raw i a ha]
    exact loopBody_has_identity L st _ a k hva hka
  rcases loopBody_cases L st (collect L st [] (raw.take j)).1 b with
    ⟨_, h1, _⟩ | ⟨_, _, _, _, h1, _⟩ | ⟨_, kb, hkb', hs, _, _⟩
  · rw [h1]; rfl
  · rw [h1]; rfl
  · rw [hkb kb hkb'] at hs
    rw [hseen] at hs
    cases hs

/-! ## The call and its output channel -/

/-- With a valid wait and a transport that starts, the output channel carries
what the goroutine delivers from the transport's replies. -/
theorem output_of_ok (L : Net) (httpu : HTTPUClient) (st : String) (m n : Int)
    (raw : List Response) (hm : 1 ≤ m)
    (hdo : httpu.Do (searchRequest st m) (searchTimeout m) n = .ok raw) :
    (SSDPRawSearch httpu st m n).output L st = some (delivered L st raw) := by
  unfold SSDPRawSearch SearchReturn.output
  rw [if_neg (by omega)]
  simp only [hdo]
  rfl

/-- An output channel exists only for a valid wait and a transport that starts. -/
theorem output_eq_some (L : Net) (httpu : HTTPUClient) (st : String) (m n : Int)
    (out : List Response) (h : (SSDPRawSearch httpu st m n).output L st = some out) :
    1 ≤ m ∧ ∃ raw, httpu.Do (searchRequest st m) (searchTimeout m) n = .ok raw ∧
      out = delivered L st raw := by
  by_cases hm : m < 1
  · unfold SSDPRawSearch SearchReturn.output at h
    rw [if_pos hm] at h
    simp at h
  · refine ⟨by omega, ?_⟩
    cases hdo : httpu.Do (searchRequest st m) (searchTimeout m) n with
    | error e =>
      unfold SSDPRawSearch SearchReturn.output at h
      rw [if_neg hm] at h
      simp only [hdo] at h
      simp at h
    | ok raw =>
      rw [output_of_ok L httpu st m n raw (by omega) hdo] at h
      exact ⟨raw, rfl, (Option.some.inj h).symm⟩

/-- With a valid wait, `Do` is called once, with the built request, the computed
timeout and `numSends`. -/
theorem calls_of_valid (httpu : HTTPUClient) (st : String) (m n : Int) (hm : 1 ≤ m) :
    (SSDPRawSearch httpu st m n).calls = [⟨searchRequest st m, searchTimeout m, n⟩] := by
  unfold SSDPRawSearch
  rw [if_neg (by omega)]
  simp only
  split <;> rfl

/-- On values of the 64-bit range the wrap is the identity. -/
theorem wrapInt64_of_isGoInt (x : Int) (h : isGoInt x) : wrapInt64 x = x := by
  obtain ⟨h1, h2⟩ := h
  unfold wrapInt64
  omega

/-- Up to 9223372036 seconds the timeout is computed without overflow. -/
theorem searchTimeout_exact (m : Int) (h1 : 1 ≤ m) (h2 : m ≤ 9223372036) :
    searchTimeout m = m * 1000000000 + 100000000 := by
  unfold searchTimeout wrapInt64 Second Millisecond
  omega

/-- With a wait below one second the call returns the argument error. -/
theorem ret_of_invalid_wait (httpu : HTTPUClient) (st : String) (m n : Int) (h : m < 1) :
    (SSDPRawSearch httpu st m n).ret = .error "ssdp: maxWaitSeconds must be >= 1" := by
  unfold SSDPRawSearch
  rw [if_pos h]

/-! ## Decimal strings -/

theorem digitChar_spec (d : Nat) (h : d < 10) :
    (Nat.digitChar d).isDigit = true ∧ (Nat.digitChar d).toNat - 48 = d ∧
      (0 < d → Nat.digitChar d ≠ '0') := by
  interval_cases d <;> decide

theorem decimalValue_append (pre : List Char) (c : Char) :
    decimalValue (pre ++ [c]) = 10 * decimalValue pre + (c.toNat - 48) := by
  simp [decimalValue, List.foldl_append]

/-- With enough fuel the digit loop prepends the decimal digits of `n`, most
significant first and without a leading zero. -/
theorem toDigitsCore_spec (fuel : Nat) : ∀ (n : Nat) (ds : List Char), n < fuel →
    ∃ pre, Nat.toDigitsCore 10 fuel n ds = pre ++ ds ∧ pre ≠ [] ∧
      (∀ c ∈ pre, c.isDigit = true) ∧ decimalValue pre = n ∧
      (0 < n → pre.head? ≠ some '0') := by
  induction fuel with
  | zero => intro n ds h; omega
  | succ fuel ih =>
    intro n ds h
    obtain ⟨hd1, hd2, hd3⟩ := digitChar_spec (n % 10) (Nat.mod_lt _ (by decide))
    by_cases hq : n / 10 = 0
    · refine ⟨[Nat.digitChar (n % 10)], ?_, by simp, ?_, ?_, ?_⟩
      · simp [Nat.toDigitsCore, hq]
      · intro c hc; simp at hc; subst hc; exact hd1
      · simp only [decimalValue, List.foldl_cons, List.foldl_nil]; omega
      · intro hn
        have : 0 < n % 10 := by omega
        simpa using hd3 this
    · obtain ⟨pre, hpre, hne, hdig, hval, hhead⟩ :=
        ih (n / 10) (Nat.digitChar (n % 10) :: ds) (by omega)
      refine ⟨pre ++ [Nat.digitChar (n % 10)], ?_, by simp, ?_, ?_, ?_⟩
      · simp [Nat.toDigitsCore, hq, hpre]
      · intro c hc
        rcases List.mem_append.mp hc with hc | hc
        · exact hdig c hc
        · simp at hc; subst hc; exact hd1
      · rw [decimalValue_append, hval]; omega
      · intro _
        cases pre with
        | nil => exact absurd rfl hne
        | cons p ps => simpa using hhead (by omega)

/-- The decimal string of `n`: digits only, reading back as `n`, and not
starting with a zero when `n` is positive. -/
theorem repr_spec (n : Nat) :
    (∀ c ∈ (Nat.repr n).data, c.isDigit = true) ∧ decimalValue (Nat.repr n).data = n ∧
      (0 < n → (Nat.repr n).data.head? ≠ some '0') := by
  obtain ⟨pre, hpre, _, hdig, hval, hhead⟩ := toDigitsCore_spec (n + 1) n [] (by omega)
  have : (Nat.repr n).data = pre := by
    simp [Nat.repr, Nat.toDigits, hpre, List.asString]
  rw [this]
  exact ⟨hdig, hval, hhead⟩

/-- For a positive 64-bit wait the `MX` value is the decimal string of the wait. -/
theorem formatInt_wait (m : Int) (h1 : 1 ≤ m) (h2 : m < 2 ^ 63) :
    FormatInt (wrapInt64 m) = Nat.repr m.toNat := by
  rw [wrapInt64_of_isGoInt m ⟨by omega, h2⟩]
  unfold FormatInt
  rw [if_neg (by omega)]
  congr 1
  omega

/-! ## Positions -/

theorem collect_append_snd (L : Net) (st : String) (seen : SeenMap) (xs ys : List Response) :
    (collect L st seen (xs ++ ys)).2 =
      (collect L st seen xs).2 ++ (collect L st (collect L st seen xs).1 ys).2 := by
  induction xs generalizing seen with
  | nil => rfl
  | cons x xs ih =>
    rw [List.cons_append, collect_cons_snd, collect_cons_snd, collect_cons_fst, ih,
      List.append_assoc]

/-- A reply sent while the first `i` raw replies are processed sits at a
delivered position below `i`. -/
theorem mem_collect_take (L : Net) (st : String) (raw : List Response) (i : Nat)
    (r : Response) (h : r ∈ (collect L st [] (raw.take i)).2) :
    ∃ j, j < i ∧ raw[j]? = some r ∧ deliveredAt L st raw j = true := by
  induction i with
  | zero => simp [collect] at h
  | succ i ih =>
    cases hx : raw[i]? with
    | none =>
      have hlen : raw.length ≤ i := by
        rcases Nat.lt_or_ge i raw.length with hlt | hge
        · rw [List.getElem?_eq_getElem hlt] at hx; cases hx
        · exact hge
      rw [List.take_of_length_le (by omega)] at h
      rw [List.take_of_length_le hlen] at ih
      obtain ⟨j, hj, hrest⟩ := ih h
      exact ⟨j, by omega, hrest⟩
    | some x =>
      rw [List.take_succ, hx, collect_append_snd] at h
      rcases List.mem_append.mp h with h | h
      · obtain ⟨j, hj, hrest⟩ := ih h
        exact ⟨j, by omega, hrest⟩
      · have hsent : (loopBody L st (collect L st [] (raw.take i)).1 x).sent = some r := by
          have h' : r ∈ (loopBody L st (collect L st [] (raw.take i)).1 x).sent.toList := by
            simpa [collect] using h
          simpa using h'
        have hxr : x = r := by
          rcases loopBody_cases L st (collect L st [] (raw.take i)).1 x with
            ⟨_, h1, _⟩ | ⟨_, _, _, _, h1, _⟩ | ⟨_, _, _, _, h1, _⟩
          · rw [h1] at hsent; cases hsent
          · rw [h1] at hsent; cases hsent
          · rw [h1] at hsent; exact Option.some.inj hsent
        subst hxr
        refine ⟨i, by omega, hx, ?_⟩
        rw [deliveredAt_eq L st raw i x hx, hsent]
        rfl

/-! ## Claims -/

/-- C1: for every search target, every number of sends and every
`maxWaitSeconds < 1`, `SSDPRawSearch` returns the error
"ssdp: maxWaitSeconds must be >= 1", returns no output channel, and makes no
call of the transport's `Do`. -/
theorem C1_invalid_wait_no_transport_call (L : Net) (httpu : HTTPUClient) (st : String)
    (m n : Int) (h : m < 1) :
    (SSDPRawSearch httpu st m n).ret = .error "ssdp: maxWaitSeconds must be >= 1" ∧
    (SSDPRawSearch httpu st m n).output L st = none ∧
    (SSDPRawSearch httpu st m n).calls = [] := by
  unfold SearchReturn.output SSDPRawSearch
  rw [if_pos h]
  exact ⟨rfl, rfl, rfl⟩

/-- C1 at `maxWaitSeconds = 0` with a transport that would answer. -/
theorem C1_invalid_wait_no_transport_call_witness :
    (0 : Int) < 1 ∧
    (SSDPRawSearch (sampleTransport [sampleReply "upnp:rootdevice" "uuid:1" "http://a/d.xml"])
        "upnp:rootdevice" 0 3).ret = .error "ssdp: maxWaitSeconds must be >= 1" ∧
    (SSDPRawSearch (sampleTransport [sampleReply "upnp:rootdevice" "uuid:1" "http://a/d.xml"])
        "upnp:rootdevice" 0 3).output sampleNet "upnp:rootdevice" = none ∧
    (SSDPRawSearch (sampleTransport [sampleReply "upnp:rootdevice" "uuid:1" "http://a/d.xml"])
        "upnp:rootdevice" 0 3).calls = [] :=
  ⟨by decide, C1_invalid_wait_no_transport_call sampleNet _ _ 0 3 (by decide)⟩

/-- C2: every reply delivered on the output channel of `SSDPRawSearch` has status
code 200, an `ST` header equal to the search target and a `Location` that
resolves without error; so a reply with another status, another `ST` or no
resolvable `Location` is not among the delivered replies. -/
theorem C2_delivered_replies_valid (L : Net) (httpu : HTTPUClient) (st : String) (m n : Int)
    (out : List Response) (h : (SSDPRawSearch httpu st m n).output L st = some out) :
    (∀ r ∈ out, r.StatusCode = 200 ∧ Header.Get L r.Header "ST" = st ∧
        ∃ location, r.Location L = .ok location) ∧
    (∀ r : Response, (r.StatusCode ≠ 200 ∨ Header.Get L r.Header "ST" ≠ st ∨
        ∃ err, r.Location L = .error err) → r ∉ out) := by
  obtain ⟨_, raw, _, rfl⟩ := output_eq_some L httpu st m n out h
  have key : ∀ r ∈ delivered L st raw, r.StatusCode = 200 ∧ Header.Get L r.Header "ST" = st ∧
      ∃ location, r.Location L = .ok location := by
    intro r hr
    rw [delivered_eq_collect] at hr
    obtain ⟨⟨h1, h2, h3⟩, _⟩ := collect_mem L st [] raw r hr
    refine ⟨h1, h2, ?_⟩
    unfold locationResolves at h3
    cases hloc : r.Location L with
    | ok location => exact ⟨location, rfl⟩
    | error e => rw [hloc] at h3; simp at h3
  refine ⟨key, ?_⟩
  intro r hbad hr
  obtain ⟨h1, h2, location, h3⟩ := key r hr
  rcases hbad with hb | hb | ⟨err, hb⟩
  · exact hb h1
  · exact hb h2
  · rw [h3] at hb; cases hb

/-- C2 on a transport yielding a valid reply, a 404, a reply for another target
and a reply without `Location`. -/
theorem C2_delivered_replies_valid_witness :
    (SSDPRawSearch (sampleTransport mixedReplies) "t" 2 3).output sampleNet "t" =
      some [sampleReply "t" "uuid:1" "http://a"] ∧
    (∀ r ∈ [sampleReply "t" "uuid:1" "http://a"],
        r.StatusCode = 200 ∧ Header.Get sampleNet r.Header "ST" = "t" ∧
        ∃ location, r.Location sampleNet = .ok location) ∧
    (∀ r : Response, (r.StatusCode ≠ 200 ∨ Header.Get sampleNet r.Header "ST" ≠ "t" ∨
        ∃ err, r.Location sampleNet = .error err) →
      r ∉ [sampleReply "t" "uuid:1" "http://a"]) :=
  ⟨by decide, C2_delivered_replies_valid sampleNet (sampleTransport mixedReplies) "t" 2 3
    [sampleReply "t" "uuid:1" "http://a"] (by decide)⟩

/-- C3: no two replies delivered on the output channel of one call share an
identity (the `USN` header when not empty, otherwise the string form of the
resolved `Location`), every delivered reply has an identity, and when the
transport yields `k ≥ 1` copies of one valid reply exactly one is delivered. -/
theorem C3_delivered_identities_distinct (L : Net) (httpu : HTTPUClient) (st : String)
    (m n : Int) (raw : List Response) (hm : 1 ≤ m)
    (hdo : httpu.Do (searchRequest st m) (searchTimeout m) n = .ok raw) :
    ∃ out, (SSDPRawSearch httpu st m n).output L st = some out ∧
      (out.map (identity L)).Nodup ∧
      (∀ r ∈ out, ∃ key, identity L r = some key) ∧
      (∀ (r : Response) (k : Nat), 1 ≤ k → passesValidation L st r →
        raw = List.replicate k r → out = [r]) := by
  refine ⟨delivered L st raw, output_of_ok L httpu st m n raw hm hdo, ?_, ?_, ?_⟩
  · rw [delivered_eq_collect]
    exact collect_nodup L st [] raw
  · intro r hr
    rw [delivered_eq_collect] at hr
    obtain ⟨_, key, hkey, _⟩ := collect_mem L st [] raw r hr
    exact ⟨key, hkey⟩
  · intro r k hk hv hraw
    obtain ⟨k', rfl⟩ : ∃ k', k = k' + 1 := ⟨k - 1, by omega⟩
    obtain ⟨key, hkey⟩ := identity_of_passesValidation L st r hv
    obtain ⟨h1, h2⟩ := loopBody_fresh L st [] r key hv hkey rfl
    rw [hraw, delivered_eq_collect, List.replicate_succ, collect_cons_send L st [] r _ key h1 h2,
      collect_replicate_seen L st _ r key k' hv hkey (by rw [SeenMap.has_set]; simp)]

/-- C3 on three identical valid replies, with a wait of 2 seconds and 3 sends. -/
theorem C3_delivered_identities_distinct_witness :
    (1 : Int) ≤ 2 ∧
    (sampleTransport (List.replicate 3
        (sampleReply "urn:schemas-upnp-org:device:Basic:1" "uuid:abc" "http://a/d.xml"))).Do
      (searchRequest "urn:schemas-upnp-org:device:Basic:1" 2) (searchTimeout 2) 3 =
      .ok (List.replicate 3
        (sampleReply "urn:schemas-upnp-org:device:Basic:1" "uuid:abc" "http://a/d.xml")) ∧
    ∃ out, (SSDPRawSearch (sampleTransport (List.replicate 3
        (sampleReply "urn:schemas-upnp-org:device:Basic:1" "uuid:abc" "http://a/d.xml")))
        "urn:schemas-upnp-org:device:Basic:1" 2 3).output sampleNet
        "urn:schemas-upnp-org:device:Basic:1" = some out ∧
      (out.map (identity sampleNet)).Nodup ∧
      (∀ r ∈ out, ∃ key, identity sampleNet r = some key) ∧
      (∀ (r : Response) (k : Nat), 1 ≤ k →
        passesValidation sampleNet "urn:schemas-upnp-org:device:Basic:1" r →
        List.replicate 3
          (sampleReply "urn:schemas-upnp-org:device:Basic:1" "uuid:abc" "http://a/d.xml") =
          List.replicate k r → out = [r]) :=
  ⟨by decide, rfl,
    C3_delivered_identities_distinct sampleNet
      (sampleTransport (List.replicate 3
        (sampleReply "urn:schemas-upnp-org:device:Basic:1" "uuid:abc" "http://a/d.xml")))
      "urn:schemas-upnp-org:device:Basic:1" 2 3 _ (by decide) rfl⟩

/-- C4 as stated fails: a reply with status 404 and `USN` "uuid:1" followed by
a valid reply with the same `USN` share an identity, and the one delivered is
the second, not the first. -/
theorem C4_first_of_two_counterexample :
    ¬ (∀ (L : Net) (st : String) (raw : List Response) (i j : Nat) (a b : Response),
        i < j → raw[i]? = some a → raw[j]? = some b → sameIdentity L a b →
        ¬ (deliveredAt L st raw i = true ∧ deliveredAt L st raw j = true) ∧
        (deliveredAt L st raw i = true ∨ deliveredAt L st raw j = true →
          deliveredAt L st raw i = true)) := by
  intro h
  have h' := h sampleNet "t"
    [sampleReply404 "t" "uuid:1" "http://a", sampleReply "t" "uuid:1" "http://a"] 0 1
    (sampleReply404 "t" "uuid:1" "http://a") (sampleReply "t" "uuid:1" "http://a")
    (by decide) rfl rfl (Or.inl ⟨by decide, by decide⟩)
  have h2 := h'.2 (Or.inr (by decide))
  revert h2
  decide

/-- C4, amended: of two raw replies that share an identity at most one is
delivered, and when the earlier of the two passes validation the later one is
not delivered, so that the one delivered, if any, is the first to arrive. -/
theorem C4_first_of_two_valid (L : Net) (st : String) (raw : List Response) (i j : Nat)
    (a b : Response) (hij : i < j) (ha : raw[i]? = some a) (hb : raw[j]? = some b)
    (hsame : sameIdentity L a b) :
    ¬ (deliveredAt L st raw i = true ∧ deliveredAt L st raw j = true) ∧
    (passesValidation L st a → deliveredAt L st raw j = false) := by
  have key : passesValidation L st a → deliveredAt L st raw j = false := by
    intro hva
    obtain ⟨k, hk⟩ := identity_of_passesValidation L st a hva
    exact not_deliveredAt_after_valid L st raw i j a b k hij ha hb hva hk
      (fun kb hkb => (identity_eq_of_sameIdentity L a b k kb hsame hk hkb).symm)
  refine ⟨?_, key⟩
  rintro ⟨hi, hj⟩
  rw [deliveredAt_eq L st raw i a ha] at hi
  rw [key (passesValidation_of_sent L st _ a hi)] at hj
  cases hj

/-- C4, amended, on two valid replies with the same `USN`. -/
theorem C4_first_of_two_valid_witness :
    (0 : Nat) < 1 ∧
    [sampleReply "t" "uuid:1" "http://a", sampleReply "t" "uuid:1" "http://b"][0]? =
      some (sampleReply "t" "uuid:1" "http://a") ∧
    [sampleReply "t" "uuid:1" "http://a", sampleReply "t" "uuid:1" "http://b"][1]? =
      some (sampleReply "t" "uuid:1" "http://b") ∧
    sameIdentity sampleNet (sampleReply "t" "uuid:1" "http://a")
      (sampleReply "t" "uuid:1" "http://b") ∧
    ¬ (deliveredAt sampleNet "t"
          [sampleReply "t" "uuid:1" "http://a", sampleReply "t" "uuid:1" "http://b"] 0 = true ∧
        deliveredAt sampleNet "t"
          [sampleReply "t" "uuid:1" "http://a", sampleReply "t" "uuid:1" "http://b"] 1 = true) ∧
    (passesValidation sampleNet "t" (sampleReply "t" "uuid:1" "http://a") →
      deliveredAt sampleNet "t"
        [sampleReply "t" "uuid:1" "http://a", sampleReply "t" "uuid:1" "http://b"] 1 = false) :=
  ⟨by decide, rfl, rfl, Or.inl ⟨by decide, by decide⟩,
    C4_first_of_two_valid sampleNet "t"
      [sampleReply "t" "uuid:1" "http://a", sampleReply "t" "uuid:1" "http://b"] 0 1
      (sampleReply "t" "uuid:1" "http://a") (sampleReply "t" "uuid:1" "http://b")
      (by decide) rfl rfl (Or.inl ⟨by decide, by decide⟩)⟩

/-- C5 fails at `maxWaitSeconds = 9223372037`, a value of the 64-bit Go `int`:
the multiplication by `time.Second` overflows, and the timeout passed to `Do`
is the negative duration -9223372036609551616 ns, not 9223372037 s + 100 ms.
The repeat count passed is `numSends`. -/
theorem C5_timeout_overflows (httpu : HTTPUClient) (st : String) (n : Int) :
    isGoInt 9223372037 ∧ (1 : Int) ≤ 9223372037 ∧
    (SSDPRawSearch httpu st 9223372037 n).calls =
      [⟨searchRequest st 9223372037, -9223372036609551616, n⟩] ∧
    (-9223372036609551616 : Int) ≠ 9223372037 * Second + 100 * Millisecond := by
  refine ⟨by decide, by decide, ?_, by decide⟩
  rw [calls_of_valid httpu st 9223372037 n (by decide)]
  rfl

/-- C6 fails on the code: a reply with status 200, the requested `ST`, a
`Location` that resolves and no `USN` header is delivered, although its `USN`
reads as the empty string. -/
theorem C6_reply_without_usn_delivered :
    (SSDPRawSearch (sampleTransport [sampleReplyNoUSN "t" "http://a/d.xml"]) "t" 2 3).output
        sampleNet "t" = some [sampleReplyNoUSN "t" "http://a/d.xml"] ∧
    Header.Get sampleNet (sampleReplyNoUSN "t" "http://a/d.xml").Header "USN" = "" := by
  decide

/-- C8: the replies delivered on the output channel are a subsequence of the
raw replies, in arrival order. -/
theorem C8_output_is_subsequence (L : Net) (httpu : HTTPUClient) (st : String) (m n : Int)
    (raw : List Response) (hm : 1 ≤ m)
    (hdo : httpu.Do (searchRequest st m) (searchTimeout m) n = .ok raw) :
    ∃ out, (SSDPRawSearch httpu st m n).output L st = some out ∧ List.Sublist out raw := by
  refine ⟨delivered L st raw, output_of_ok L httpu st m n raw hm hdo, ?_⟩
  rw [delivered_eq_collect]
  exact collect_sublist L st [] raw

/-- C8 on a transport yielding a valid reply, a 404, a reply for another target
and a reply without `Location`. -/
theorem C8_output_is_subsequence_witness :
    (1 : Int) ≤ 2 ∧
    (sampleTransport mixedReplies).Do (searchRequest "t" 2) (searchTimeout 2) 3 =
      .ok mixedReplies ∧
    ∃ out, (SSDPRawSearch (sampleTransport mixedReplies) "t" 2 3).output sampleNet "t" =
      some out ∧ List.Sublist out mixedReplies :=
  ⟨by decide, rfl,
    C8_output_is_subsequence sampleNet (sampleTransport mixedReplies) "t" 2 3 mixedReplies
      (by decide) rfl⟩

/-- C9: `SSDPRawSearch` returns an error exactly when `maxWaitSeconds < 1` or
`Do` returns an error; an error of `Do` is returned as it is, with no output
channel; and whatever replies `Do` yields, the call returns an output channel,
which is empty when no reply passes validation. -/
theorem C9_errors_only_from_wait_or_transport (L : Net) (httpu : HTTPUClient) (st : String)
    (m n : Int) :
    ((∃ e, (SSDPRawSearch httpu st m n).ret = .error e) ↔
      (m < 1 ∨ ∃ e, httpu.Do (searchRequest st m) (searchTimeout m) n = .error e)) ∧
    (∀ e, 1 ≤ m → httpu.Do (searchRequest st m) (searchTimeout m) n = .error e →
      (SSDPRawSearch httpu st m n).ret = .error e ∧
      (SSDPRawSearch httpu st m n).output L st = none) ∧
    (∀ raw, 1 ≤ m → httpu.Do (searchRequest st m) (searchTimeout m) n = .ok raw →
      (∃ w, (SSDPRawSearch httpu st m n).ret = .ok w) ∧
      (SSDPRawSearch httpu st m n).output L st = some (delivered L st raw) ∧
      ((∀ r ∈ raw, ¬ passesValidation L st r) →
        (SSDPRawSearch httpu st m n).output L st = some [])) := by
  have herr : ∀ e, 1 ≤ m → httpu.Do (searchRequest st m) (searchTimeout m) n = .error e →
      (SSDPRawSearch httpu st m n).ret = .error e ∧
      (SSDPRawSearch httpu st m n).output L st = none := by
    intro e hm hdo
    unfold SearchReturn.output SSDPRawSearch
    rw [if_neg (by omega)]
    simp [hdo]
  have hok : ∀ raw, 1 ≤ m → httpu.Do (searchRequest st m) (searchTimeout m) n = .ok raw →
      ∃ w, (SSDPRawSearch httpu st m n).ret = .ok w := by
    intro raw hm hdo
    unfold SSDPRawSearch
    rw [if_neg (by omega)]
    simp only [hdo]
    exact ⟨_, rfl⟩
  refine ⟨⟨?_, ?_⟩, herr, ?_⟩
  · rintro ⟨e, he⟩
    by_cases hm : m < 1
    · exact Or.inl hm
    · right
      cases hdo : httpu.Do (searchRequest st m) (searchTimeout m) n with
      | error e' => exact ⟨e', rfl⟩
      | ok raw =>
        obtain ⟨w, hw⟩ := hok raw (by omega) hdo
        rw [hw] at he
        cases he
  · rintro (hm | ⟨e, hdo⟩)
    · exact ⟨_, ret_of_invalid_wait httpu st m n hm⟩
    · by_cases hm : m < 1
      · exact ⟨_, ret_of_invalid_wait httpu st m n hm⟩
      · exact ⟨e, (herr e (by omega) hdo).1⟩
  · intro raw hm hdo
    refine ⟨hok raw hm hdo, output_of_ok L httpu st m n raw hm hdo, ?_⟩
    intro hall
    rw [output_of_ok L httpu st m n raw hm hdo]
    congr 1
    apply List.eq_nil_iff_forall_not_mem.mpr
    intro r hr
    rw [delivered_eq_collect] at hr
    have hv := (collect_mem L st [] raw r hr).1
    exact hall r ((collect_sublist L st [] raw).subset hr) hv

/-- C7: for every search target and every `maxWaitSeconds ≥ 1` of the 64-bit
range, `Do` receives one request with method "M-SEARCH", URL `*`, host
"239.255.255.250:1900" and exactly the headers `HOST`, `MX`, `MAN` and `ST` in
upper case with one value each: the multicast address, the decimal string of
`maxWaitSeconds` (digits only, reading back as `maxWaitSeconds`, no leading
zero), the token `"ssdp:discover"` with its quotes, and the search target. The
request is the same for every `numSends`. -/
theorem C7_request_shape (httpu : HTTPUClient) (st : String) (m n : Int) (h1 : 1 ≤ m)
    (h2 : m < 2 ^ 63) :
    ∃ req timeout, (SSDPRawSearch httpu st m n).calls = [⟨req, timeout, n⟩] ∧
      req.Method = "M-SEARCH" ∧ req.URL = { Opaque := "*" } ∧
      req.Host = "239.255.255.250:1900" ∧
      req.Header =
        [ ("HOST", ["239.255.255.250:1900"]), ("MX", [Nat.repr m.toNat]),
          ("MAN", ["\"ssdp:discover\""]), ("ST", [st]) ] ∧
      (∀ c ∈ (Nat.repr m.toNat).data, c.isDigit = true) ∧
      (decimalValue (Nat.repr m.toNat).data : Int) = m ∧
      (Nat.repr m.toNat).data.head? ≠ some '0' ∧
      ∀ n' : Int, (SSDPRawSearch httpu st m n').calls.map DoCall.req = [req] := by
  obtain ⟨hdig, hval, hhead⟩ := repr_spec m.toNat
  refine ⟨searchRequest st m, searchTimeout m, calls_of_valid httpu st m n h1, rfl, rfl, rfl,
    ?_, hdig, ?_, hhead (by omega), ?_⟩
  · unfold searchRequest
    rw [formatInt_wait m h1 h2]
    rfl
  · rw [hval]; omega
  · intro n'
    rw [calls_of_valid httpu st m n' h1]
    rfl

/-- C7 with a wait of 2 seconds and 3 sends. -/
theorem C7_request_shape_witness :
    (1 : Int) ≤ 2 ∧ (2 : Int) < 2 ^ 63 ∧
    ∃ req timeout,
      (SSDPRawSearch (sampleTransport []) "upnp:rootdevice" 2 3).calls = [⟨req, timeout, 3⟩] ∧
      req.Method = "M-SEARCH" ∧ req.URL = { Opaque := "*" } ∧
      req.Host = "239.255.255.250:1900" ∧
      req.Header =
        [ ("HOST", ["239.255.255.250:1900"]), ("MX", [Nat.repr (2 : Int).toNat]),
          ("MAN", ["\"ssdp:discover\""]), ("ST", ["upnp:rootdevice"]) ] ∧
      (∀ c ∈ (Nat.repr (2 : Int).toNat).data, c.isDigit = true) ∧
      (decimalValue (Nat.repr (2 : Int).toNat).data : Int) = 2 ∧
      (Nat.repr (2 : Int).toNat).data.head? ≠ some '0' ∧
      ∀ n' : Int,
        (SSDPRawSearch (sampleTransport []) "upnp:rootdevice" 2 n').calls.map DoCall.req =
          [req] :=
  ⟨by decide, by decide,
    C7_request_shape (sampleTransport []) "upnp:rootdevice" 2 3 (by decide) (by decide)⟩

/-- C10: for every seen set and every raw reply, the loop body sends the reply
exactly when its status is 200, its `ST` equals the search target, its
`Location` resolves and its identity is not a key of the seen set; it sends
nothing else; a reply that is sent has its identity stored in the seen set,
whose other keys are unchanged; a reply whose identity is already a key is
dropped and the seen set stays as it was. Consequently the reply at position
`i` is delivered exactly when it passes the three validations and no delivered
reply before it has the same identity. -/
theorem C10_step_rule (L : Net) (st : String) :
    (∀ (seen : SeenMap) (r : Response),
      ((loopBody L st seen r).sent = some r ↔
        (r.StatusCode = 200 ∧ Header.Get L r.Header "ST" = st ∧
          (∃ location, r.Location L = .ok location)) ∧
        ∃ key, identity L r = some key ∧ seen.has key = false) ∧
      ((loopBody L st seen r).sent = some r ∨ (loopBody L st seen r).sent = none) ∧
      ((loopBody L st seen r).sent = some r →
        ∃ key, identity L r = some key ∧
          ∀ k, (loopBody L st seen r).seenUsns.has k = true ↔ (k = key ∨ seen.has k = true)) ∧
      (∀ key, identity L r = some key → seen.has key = true →
        (loopBody L st seen r).sent = none ∧ (loopBody L st seen r).seenUsns = seen)) ∧
    (∀ (raw : List Response) (i : Nat),
      deliveredAt L st raw i = true ↔
        ∃ r, raw[i]? = some r ∧ passesValidation L st r ∧
          ∀ j r', j < i → raw[j]? = some r' → deliveredAt L st raw j = true →
            identity L r' ≠ identity L r) := by
  have hres : ∀ r : Response, locationResolves L r = true ↔
      ∃ location, r.Location L = .ok location := by
    intro r
    unfold locationResolves
    cases r.Location L <;> simp
  refine ⟨fun seen r => ⟨⟨?_, ?_⟩, ?_, ?_, ?_⟩, fun raw i => ⟨?_, ?_⟩⟩
  · intro hsent
    rcases loopBody_cases L st seen r with ⟨_, h1, _⟩ | ⟨_, _, _, _, h1, _⟩ | ⟨hv, k, hk, hs, _, _⟩
    · rw [h1] at hsent; cases hsent
    · rw [h1] at hsent; cases hsent
    · exact ⟨⟨hv.1, hv.2.1, (hres r).mp hv.2.2⟩, k, hk, hs⟩
  · rintro ⟨⟨h1, h2, h3⟩, k, hk, hs⟩
    exact (loopBody_fresh L st seen r k ⟨h1, h2, (hres r).mpr h3⟩ hk hs).1
  · rcases loopBody_cases L st seen r with ⟨_, h1, _⟩ | ⟨_, _, _, _, h1, _⟩ | ⟨_, _, _, _, h1, _⟩
    · exact Or.inr h1
    · exact Or.inr h1
    · exact Or.inl h1
  · intro hsent
    rcases loopBody_cases L st seen r with ⟨_, h1, _⟩ | ⟨_, _, _, _, h1, _⟩ | ⟨_, k, hk, _, _, h2⟩
    · rw [h1] at hsent; cases hsent
    · rw [h1] at hsent; cases hsent
    · refine ⟨k, hk, fun k' => ?_⟩
      rw [h2, SeenMap.has_set]
      simp
  · intro key hkey hs
    by_cases hv : passesValidation L st r
    · exact loopBody_seen L st seen r key hv hkey hs
    · exact loopBody_invalid L st seen r hv
  · intro hd
    have hi : i < raw.length := by
      rcases Nat.lt_or_ge i raw.length with h | h
      · exact h
      · rw [deliveredAt_of_length_le L st raw i h] at hd; cases hd
    have hr : raw[i]? = some raw[i] := List.getElem?_eq_getElem hi
    refine ⟨raw[i], hr, ?_, ?_⟩
    · rw [deliveredAt_eq L st raw i _ hr] at hd
      exact passesValidation_of_sent L st _ _ hd
    · intro j r' hj hr' hdj heq
      rw [deliveredAt_eq L st raw j r' hr'] at hdj
      have hv' := passesValidation_of_sent L st _ _ hdj
      obtain ⟨k, hk⟩ := identity_of_passesValidation L st r' hv'
      have := not_deliveredAt_after_valid L st raw j i r' raw[i] k hj hr' hr hv' hk
        (fun kb hkb => by rw [heq, hkb] at hk; exact Option.some.inj hk)
      rw [this] at hd
      cases hd
  · rintro ⟨r, hr, hv, hno⟩
    rw [deliveredAt_eq L st raw i r hr]
    rcases loopBody_cases L st (collect L st [] (raw.take i)).1 r with
      ⟨hnv, _⟩ | ⟨_, k, hk, hs, _, _⟩ | ⟨_, _, _, _, h1, _⟩
    · exact absurd hv hnv
    · exfalso
      rcases (collect_has L st [] (raw.take i) k).mp hs with h0 | hmem
      · simp [SeenMap.has] at h0
      · obtain ⟨r', hr', hid⟩ := List.mem_map.mp hmem
        obtain ⟨j, hj, hrj, hdj⟩ := mem_collect_take L st raw i r' hr'
        exact hno j r' hj hrj hdj (by rw [hid, hk])
    · rw [h1]; rfl

/-! ## The goroutine, step by step -/

/-- The state of the goroutine after `n` steps: the replies not yet received,
the seen set and the replies sent are those of the fold over the first `n` raw
replies, and the output channel is closed from step `raw.length + 1` on. -/
theorem steps_spawn (L : Net) (st : String) (raw : List Response) (n : Nat) :
    (Worker.steps L st n (spawn raw)).allResponses = raw.drop n ∧
    (Worker.steps L st n (spawn raw)).seenUsns = (collect L st [] (raw.take n)).1 ∧
    (Worker.steps L st n (spawn raw)).responses = (collect L st [] (raw.take n)).2 ∧
    (Worker.steps L st n (spawn raw)).closed = decide (raw.length < n) := by
  induction n with
  | zero => simp [Worker.steps, spawn, collect]
  | succ n ih =>
    obtain ⟨h1, h2, h3, h4⟩ := ih
    rw [Worker.steps_succ]
    rcases Nat.lt_or_ge n raw.length with hn | hn
    · have hx : raw[n]? = some raw[n] := List.getElem?_eq_getElem hn
      have hdrop : raw.drop n = raw[n] :: raw.drop (n + 1) := List.drop_eq_getElem_cons hn
      have hstep : (Worker.steps L st n (spawn raw)).step L st =
          { allResponses := raw.drop (n + 1)
            seenUsns := (loopBody L st (collect L st [] (raw.take n)).1 raw[n]).seenUsns
            responses := (collect L st [] (raw.take n)).2 ++
              (loopBody L st (collect L st [] (raw.take n)).1 raw[n]).sent.toList
            closed := decide (raw.length < n)
            log := (Worker.steps L st n (spawn raw)).log ++
              (loopBody L st (collect L st [] (raw.take n)).1 raw[n]).log } := by
        unfold Worker.step
        rw [h1, hdrop]
        simp only [h2, h3, h4]
      rw [hstep]
      refine ⟨rfl, ?_, ?_, ?_⟩
      · rw [collect_take_succ L st raw n raw[n] hx]
      · rw [List.take_succ, hx, collect_append_snd]
        simp [collect]
      · simp only [decide_eq_decide]
        omega
    · have hdrop : raw.drop n = [] := List.drop_of_length_le hn
      have hstep : (Worker.steps L st n (spawn raw)).step L st =
          { Worker.steps L st n (spawn raw) with closed := true } := by
        unfold Worker.step
        rw [h1, hdrop]
        simp only [h1, hdrop]
      rw [hstep]
      refine ⟨?_, ?_, ?_, ?_⟩
      · simp only [h1, hdrop]
        exact (List.drop_of_length_le (by omega)).symm
      · simp only [h2]
        rw [List.take_of_length_le hn, List.take_of_length_le (by omega)]
      · simp only [h3]
        rw [List.take_of_length_le hn, List.take_of_length_le (by omega)]
      · simp only [true_eq_decide_iff]
        omega

/-- The goroutine returned by a successful call. -/
theorem ret_of_ok (httpu : HTTPUClient) (st : String) (m n : Int) (raw : List Response)
    (hm : 1 ≤ m) (hdo : httpu.Do (searchRequest st m) (searchTimeout m) n = .ok raw) :
    (SSDPRawSearch httpu st m n).ret = .ok (spawn raw) := by
  unfold SSDPRawSearch
  rw [if_neg (by omega)]
  simp only [hdo]
  rfl

/-- The identity of a reply with an empty `USN` whose `Location` resolves is
the string form of the resolved URL. -/
theorem identity_of_empty_usn (L : Net) (r : Response) (location : URL)
    (hu : Header.Get L r.Header "USN" = "") (hl : r.Location L = .ok location) :
    identity L r = some (L.urlString location) := by
  unfold identity
  rw [if_neg (by simpa using hu), hl]

/-- A valid reply is delivered when no reply delivered before it has its
identity. -/
theorem deliveredAt_of_no_earlier (L : Net) (st : String) (raw : List Response) (i : Nat)
    (r : Response) (hr : raw[i]? = some r) (hv : passesValidation L st r)
    (hno : ∀ j r', j < i → raw[j]? = some r' → deliveredAt L st raw j = true →
      identity L r' ≠ identity L r) :
    deliveredAt L st raw i = true := by
  rw [deliveredAt_eq L st raw i r hr]
  rcases loopBody_cases L st (collect L st [] (raw.take i)).1 r with
    ⟨hnv, _⟩ | ⟨_, k, hk, hs, _, _⟩ | ⟨_, _, _, _, h1, _⟩
  · exact absurd hv hnv
  · exfalso
    rcases (collect_has L st [] (raw.take i) k).mp hs with h0 | hmem
    · simp [SeenMap.has] at h0
    · obtain ⟨r', hr', hid⟩ := List.mem_map.mp hmem
      obtain ⟨j, hj, hrj, hdj⟩ := mem_collect_take L st raw i r' hr'
      exact hno j r' hj hrj hdj (by rw [hid, hk])
  · rw [h1]; rfl

/-- Of two valid replies with the same key, alone in the raw sequence, the
first is delivered and the second is not. -/
theorem delivered_pair_same_key (L : Net) (st : String) (a b : Response) (k : String)
    (hva : passesValidation L st a) (hvb : passesValidation L st b)
    (hka : identity L a = some k) (hkb : identity L b = some k) :
    delivered L st [a, b] = [a] := by
  obtain ⟨h1, h2⟩ := loopBody_fresh L st [] a k hva hka rfl
  have hs : (SeenMap.set [] k true).has k = true := by rw [SeenMap.has_set]; simp
  obtain ⟨h3, h4⟩ := loopBody_seen L st _ b k hvb hkb hs
  rw [delivered_eq_collect, collect_cons_send L st [] a [b] k h1 h2,
    collect_cons_skip L st _ b [] h3 h4]
  rfl

/-- C11: of two raw replies that both pass validation, both have an absent or
empty `USN` and resolve to the same `Location` string, the later one is not
delivered, the earlier one is delivered when no reply delivered before it has
its identity, and when the two are the whole raw sequence exactly the first is
delivered; such a reply is deduplicated on the string form of its resolved
`Location`: it is sent exactly when that string is not a key of the seen set,
and that string is the key stored. -/
theorem C11_location_fallback (L : Net) (st : String) (raw : List Response) (i j : Nat)
    (a b : Response) (la lb : URL) (hij : i < j) (ha : raw[i]? = some a)
    (hb : raw[j]? = some b) (hva : passesValidation L st a) (hvb : passesValidation L st b)
    (hua : Header.Get L a.Header "USN" = "") (hub : Header.Get L b.Header "USN" = "")
    (hla : a.Location L = .ok la) (hlb : b.Location L = .ok lb)
    (hstr : L.urlString la = L.urlString lb) :
    deliveredAt L st raw j = false ∧
    ((∀ h r', h < i → raw[h]? = some r' → deliveredAt L st raw h = true →
        identity L r' ≠ identity L a) → deliveredAt L st raw i = true) ∧
    (raw = [a, b] → delivered L st raw = [a]) ∧
    identity L b = some (L.urlString lb) ∧
    (∀ seen : SeenMap,
      ((loopBody L st seen b).sent = some b ↔ seen.has (L.urlString lb) = false) ∧
      (seen.has (L.urlString lb) = false →
        (loopBody L st seen b).seenUsns = seen.set (L.urlString lb) true)) := by
  have hka : identity L a = some (L.urlString lb) := by
    rw [← hstr]; exact identity_of_empty_usn L a la hua hla
  have hkb : identity L b = some (L.urlString lb) := identity_of_empty_usn L b lb hub hlb
  refine ⟨?_, ?_, ?_, hkb, ?_⟩
  · exact not_deliveredAt_after_valid L st raw i j a b _ hij ha hb hva hka
      (fun kb h => by rw [hkb] at h; exact (Option.some.inj h).symm)
  · exact deliveredAt_of_no_earlier L st raw i a ha hva
  · rintro rfl
    exact delivered_pair_same_key L st a b _ hva hvb hka hkb
  · intro seen
    refine ⟨⟨?_, ?_⟩, ?_⟩
    · intro hsent
      cases hs : seen.has (L.urlString lb)
      · rfl
      · rw [(loopBody_seen L st seen b _ hvb hkb hs).1] at hsent
        cases hsent
    · intro hs
      exact (loopBody_fresh L st seen b _ hvb hkb hs).1
    · intro hs
      exact (loopBody_fresh L st seen b _ hvb hkb hs).2

/-- C11 on two replies without `USN` whose `Location` headers differ in text
(`http://a/d.xml` and `HTTP://a/d.xml`) and resolve to the same URL string. -/
theorem C11_location_fallback_witness :
    (0 : Nat) < 1 ∧
    sampleReplyNoUSN "t" "http://a/d.xml" ≠ sampleReplyNoUSN "t" "HTTP://a/d.xml" ∧
    (deliveredAt foldingNet "t"
        [sampleReplyNoUSN "t" "http://a/d.xml", sampleReplyNoUSN "t" "HTTP://a/d.xml"] 1 =
        false ∧
      ((∀ h r', h < 0 →
          [sampleReplyNoUSN "t" "http://a/d.xml", sampleReplyNoUSN "t" "HTTP://a/d.xml"][h]? =
            some r' →
          deliveredAt foldingNet "t"
            [sampleReplyNoUSN "t" "http://a/d.xml", sampleReplyNoUSN "t" "HTTP://a/d.xml"] h =
            true →
          identity foldingNet r' ≠ identity foldingNet (sampleReplyNoUSN "t" "http://a/d.xml")) →
        deliveredAt foldingNet "t"
          [sampleReplyNoUSN "t" "http://a/d.xml", sampleReplyNoUSN "t" "HTTP://a/d.xml"] 0 =
          true) ∧
      ([sampleReplyNoUSN "t" "http://a/d.xml", sampleReplyNoUSN "t" "HTTP://a/d.xml"] =
          [sampleReplyNoUSN "t" "http://a/d.xml", sampleReplyNoUSN "t" "HTTP://a/d.xml"] →
        delivered foldingNet "t"
          [sampleReplyNoUSN "t" "http://a/d.xml", sampleReplyNoUSN "t" "HTTP://a/d.xml"] =
          [sampleReplyNoUSN "t" "http://a/d.xml"]) ∧
      identity foldingNet (sampleReplyNoUSN "t" "HTTP://a/d.xml") =
        some (foldingNet.urlString { Scheme := "http", Host := "a/d.xml" }) ∧
      (∀ seen : SeenMap,
        ((loopBody foldingNet "t" seen (sampleReplyNoUSN "t" "HTTP://a/d.xml")).sent =
            some (sampleReplyNoUSN "t" "HTTP://a/d.xml") ↔
          seen.has (foldingNet.urlString { Scheme := "http", Host := "a/d.xml" }) = false) ∧
        (seen.has (foldingNet.urlString { Scheme := "http", Host := "a/d.xml" }) = false →
          (loopBody foldingNet "t" seen (sampleReplyNoUSN "t" "HTTP://a/d.xml")).seenUsns =
            seen.set (foldingNet.urlString { Scheme := "http", Host := "a/d.xml" }) true))) :=
  ⟨by decide, by decide,
    C11_location_fallback foldingNet "t"
      [sampleReplyNoUSN "t" "http://a/d.xml", sampleReplyNoUSN "t" "HTTP://a/d.xml"] 0 1
      (sampleReplyNoUSN "t" "http://a/d.xml") (sampleReplyNoUSN "t" "HTTP://a/d.xml")
      { Scheme := "http", Host := "a/d.xml" } { Scheme := "http", Host := "a/d.xml" }
      (by decide) rfl rfl (by decide) (by decide) (by decide) (by decide) rfl rfl rfl⟩

/-- C12: in the step model of the goroutine started by a successful call, the
output channel is closed exactly from step `raw.length + 1` on: it is not closed
while raw replies remain to be received; after the last reply has been
processed the next step closes it; the replies sent do not change after the
close and are those delivered for `raw`; and the run to completion ends
closed. -/
theorem C12_output_closes_with_raw (L : Net) (httpu : HTTPUClient) (st : String) (m n : Int)
    (raw : List Response) (hm : 1 ≤ m)
    (hdo : httpu.Do (searchRequest st m) (searchTimeout m) n = .ok raw) :
    ∃ w, (SSDPRawSearch httpu st m n).ret = .ok w ∧
      (∀ k, (Worker.steps L st k w).closed = true ↔ raw.length < k) ∧
      (∀ k, (Worker.steps L st k w).allResponses ≠ [] →
        (Worker.steps L st k w).closed = false) ∧
      ((Worker.steps L st raw.length w).allResponses = [] ∧
        (Worker.steps L st raw.length w).closed = false ∧
        (Worker.steps L st (raw.length + 1) w).closed = true) ∧
      (∀ k d, (Worker.steps L st k w).closed = true →
        (Worker.steps L st (k + d) w).responses = (Worker.steps L st k w).responses ∧
        (Worker.steps L st k w).responses = delivered L st raw) ∧
      (Worker.run L st w).closed = true ∧ (Worker.run L st w).allResponses = [] ∧
      (Worker.run L st w).responses = delivered L st raw := by
  have hclosed : ∀ k, (Worker.steps L st k (spawn raw)).closed = true ↔ raw.length < k := by
    intro k
    rw [(steps_spawn L st raw k).2.2.2]
    simp
  have hresp : ∀ k, raw.length ≤ k →
      (Worker.steps L st k (spawn raw)).responses = delivered L st raw := by
    intro k hk
    rw [(steps_spawn L st raw k).2.2.1, List.take_of_length_le hk, delivered_eq_collect]
  refine ⟨spawn raw, ret_of_ok httpu st m n raw hm hdo, hclosed, ?_, ⟨?_, ?_, ?_⟩, ?_, ?_, ?_, ?_⟩
  · intro k hne
    rw [(steps_spawn L st raw k).1] at hne
    have hk : k < raw.length := by
      rcases Nat.lt_or_ge k raw.length with h | h
      · exact h
      · exact absurd (List.drop_of_length_le h) hne
    cases hc : (Worker.steps L st k (spawn raw)).closed
    · rfl
    · have := (hclosed k).mp hc
      omega
  · rw [(steps_spawn L st raw raw.length).1]
    exact List.drop_of_length_le (Nat.le_refl _)
  · cases hc : (Worker.steps L st raw.length (spawn raw)).closed
    · rfl
    · have := (hclosed raw.length).mp hc
      omega
  · exact (hclosed (raw.length + 1)).mpr (by omega)
  · intro k d hc
    have hk := (hclosed k).mp hc
    rw [hresp k (by omega), hresp (k + d) (by omega)]
    exact ⟨rfl, rfl⟩
  · exact (run_closed L st raw).1
  · exact (run_closed L st raw).2
  · exact hresp (raw.length + 1) (by omega)

/-- C12 on a transport yielding a valid reply, a 404, a reply for another target
and a reply without `Location`. -/
theorem C12_output_closes_with_raw_witness :
    (1 : Int) ≤ 2 ∧
    (sampleTransport mixedReplies).Do (searchRequest "t" 2) (searchTimeout 2) 3 =
      .ok mixedReplies ∧
    ∃ w, (SSDPRawSearch (sampleTransport mixedReplies) "t" 2 3).ret = .ok w ∧
      (∀ k, (Worker.steps sampleNet "t" k w).closed = true ↔ mixedReplies.length < k) ∧
      (∀ k, (Worker.steps sampleNet "t" k w).allResponses ≠ [] →
        (Worker.steps sampleNet "t" k w).closed = false) ∧
      ((Worker.steps sampleNet "t" mixedReplies.length w).allResponses = [] ∧
        (Worker.steps sampleNet "t" mixedReplies.length w).closed = false ∧
        (Worker.steps sampleNet "t" (mixedReplies.length + 1) w).closed = true) ∧
      (∀ k d, (Worker.steps sampleNet "t" k w).closed = true →
        (Worker.steps sampleNet "t" (k + d) w).responses =
          (Worker.steps sampleNet "t" k w).responses ∧
        (Worker.steps sampleNet "t" k w).responses = delivered sampleNet "t" mixedReplies) ∧
      (Worker.run sampleNet "t" w).closed = true ∧
      (Worker.run sampleNet "t" w).allResponses = [] ∧
      (Worker.run sampleNet "t" w).responses = delivered sampleNet "t" mixedReplies :=
  ⟨by decide, rfl,
    C12_output_closes_with_raw sampleNet (sampleTransport mixedReplies) "t" 2 3 mixedReplies
      (by decide) rfl⟩

/-- What a valid reply whose identity is already a key of the seen set writes
to the log: the missing-`USN` warning when its `USN` is empty, nothing
otherwise. -/
theorem loopBody_seen_log (L : Net) (st : String) (seen : SeenMap) (r : Response) (k : String)
    (h : passesValidation L st r) (hk : identity L r = some k) (hs : seen.has k = true) :
    (loopBody L st seen r).log =
      if Header.Get L r.Header "USN" = "" then [LogEntry.missingUSN] else [] := by
  obtain ⟨h1, h2, h3⟩ := h
  unfold locationResolves at h3
  unfold identity at hk
  unfold loopBody
  rw [if_neg (by simpa using h1)]
  simp only []
  rw [if_neg (by simpa using h2)]
  split
  · rename_i e he; rw [he] at h3; simp at h3
  · rename_i loc hloc
    rw [hloc] at hk
    by_cases hu : Header.Get L r.Header "USN" = ""
    · simp only [hu, ne_eq, not_true_eq_false, if_false, Option.some.injEq] at hk
      subst hk
      simp [hu, hs]
    · simp only [ne_eq, hu, not_false_eq_true, if_true, Option.some.injEq] at hk
      subst hk
      simp [hu, hs]

/-- C13 as stated fails: a valid reply without `USN` whose `Location` string is
already a key of the seen set is dropped, and processing it writes the
missing-`USN` warning to the log. -/
theorem C13_duplicate_log_counterexample :
    ¬ (∀ (L : Net) (st : String) (seen : SeenMap) (r : Response) (k : String),
        passesValidation L st r → identity L r = some k → seen.has k = true →
        (loopBody L st seen r).sent = none ∧ (loopBody L st seen r).log = []) := by
  intro h
  have h' := (h sampleNet "t" [("http://a/d.xml", true)]
    (sampleReplyNoUSN "t" "http://a/d.xml") "http://a/d.xml"
    (by decide) (by decide) (by decide)).2
  revert h'
  decide

/-- C13, amended: a reply dropped because its identity is already a key of the
seen set is not sent, leaves the seen set unchanged, and writes no log entry
for the drop: the log of its processing is empty when its `USN` is not empty,
and holds only the missing-`USN` warning when its `USN` is empty. -/
theorem C13_duplicate_log (L : Net) (st : String) (seen : SeenMap) (r : Response) (k : String)
    (hv : passesValidation L st r) (hk : identity L r = some k) (hs : seen.has k = true) :
    (loopBody L st seen r).sent = none ∧ (loopBody L st seen r).seenUsns = seen ∧
    (Header.Get L r.Header "USN" ≠ "" → (loopBody L st seen r).log = []) ∧
    (Header.Get L r.Header "USN" = "" →
      (loopBody L st seen r).log = [LogEntry.missingUSN]) := by
  obtain ⟨h1, h2⟩ := loopBody_seen L st seen r k hv hk hs
  have hlog := loopBody_seen_log L st seen r k hv hk hs
  refine ⟨h1, h2, ?_, ?_⟩
  · intro hu; rw [hlog, if_neg hu]
  · intro hu; rw [hlog, if_pos hu]

/-- C13, amended, on the second of two identical replies with a `USN`. -/
theorem C13_duplicate_log_witness :
    passesValidation sampleNet "t" (sampleReply "t" "uuid:1" "http://a/d.xml") ∧
    identity sampleNet (sampleReply "t" "uuid:1" "http://a/d.xml") = some "uuid:1" ∧
    SeenMap.has [("uuid:1", true)] "uuid:1" = true ∧
    (loopBody sampleNet "t" [("uuid:1", true)]
        (sampleReply "t" "uuid:1" "http://a/d.xml")).sent = none ∧
    (loopBody sampleNet "t" [("uuid:1", true)]
        (sampleReply "t" "uuid:1" "http://a/d.xml")).seenUsns = [("uuid:1", true)] ∧
    (Header.Get sampleNet (sampleReply "t" "uuid:1" "http://a/d.xml").Header "USN" ≠ "" →
      (loopBody sampleNet "t" [("uuid:1", true)]
        (sampleReply "t" "uuid:1" "http://a/d.xml")).log = []) ∧
    (Header.Get sampleNet (sampleReply "t" "uuid:1" "http://a/d.xml").Header "USN" = "" →
      (loopBody sampleNet "t" [("uuid:1", true)]
        (sampleReply "t" "uuid:1" "http://a/d.xml")).log = [LogEntry.missingUSN]) :=
  ⟨by decide, by decide, by decide,
    C13_duplicate_log sampleNet "t" [("uuid:1", true)]
      (sampleReply "t" "uuid:1" "http://a/d.xml") "uuid:1" (by decide) (by decide) (by decide)⟩

/-- A reply that fails validation can be removed from the raw sequence without
changing the seen set or the replies sent. -/
theorem collect_remove_invalid (L : Net) (st : String) (seen : SeenMap)
    (xs ys : List Response) (a : Response) (ha : ¬ passesValidation L st a) :
    collect L st seen (xs ++ a :: ys) = collect L st seen (xs ++ ys) := by
  obtain ⟨h1, h2⟩ := loopBody_invalid L st (collect L st seen xs).1 a ha
  apply Prod.ext
  · rw [collect_append_fst, collect_append_fst, collect_cons_skip L st _ a ys h1 h2]
  · rw [collect_append_snd, collect_append_snd, collect_cons_skip L st _ a ys h1 h2]

/-- C14: after any number of steps of the goroutine the keys of the seen set are
exactly the identities of the replies sent so far; a key is never lost by a
further step; a reply discarded by validation leaves the seen set unchanged and
is not sent, so that removing it from the raw sequence changes nothing in what
is delivered; in particular a valid reply that follows a discarded reply, with
the same `USN` or not, is delivered when the two are the whole sequence. -/
theorem C14_seen_set_invariant (L : Net) (st : String) :
    (∀ (raw : List Response) (n : Nat) (k : String),
      (Worker.steps L st n (spawn raw)).seenUsns.has k = true ↔
        some k ∈ (Worker.steps L st n (spawn raw)).responses.map (identity L)) ∧
    (∀ (raw : List Response) (n d : Nat) (k : String),
      (Worker.steps L st n (spawn raw)).seenUsns.has k = true →
        (Worker.steps L st (n + d) (spawn raw)).seenUsns.has k = true) ∧
    (∀ (seen : SeenMap) (r : Response), ¬ passesValidation L st r →
      (loopBody L st seen r).seenUsns = seen ∧ (loopBody L st seen r).sent = none) ∧
    (∀ (xs ys : List Response) (a : Response), ¬ passesValidation L st a →
      delivered L st (xs ++ a :: ys) = delivered L st (xs ++ ys)) ∧
    (∀ a b : Response, ¬ passesValidation L st a → passesValidation L st b →
      delivered L st [a, b] = [b]) := by
  have hremove : ∀ (xs ys : List Response) (a : Response), ¬ passesValidation L st a →
      delivered L st (xs ++ a :: ys) = delivered L st (xs ++ ys) := by
    intro xs ys a ha
    rw [delivered_eq_collect, delivered_eq_collect, collect_remove_invalid L st [] xs ys a ha]
  refine ⟨?_, ?_, ?_, hremove, ?_⟩
  · intro raw n k
    obtain ⟨_, h2, h3, _⟩ := steps_spawn L st raw n
    rw [h2, h3, collect_has]
    simp [SeenMap.has]
  · intro raw n d k h
    rw [(steps_spawn L st raw n).2.1] at h
    rw [(steps_spawn L st raw (n + d)).2.1]
    exact collect_take_mono L st raw n (n + d) (by omega) k h
  · intro seen r hr
    obtain ⟨h1, h2⟩ := loopBody_invalid L st seen r hr
    exact ⟨h2, h1⟩
  · intro a b ha hb
    have h := hremove [] [b] a ha
    simp only [List.nil_append] at h
    rw [h, delivered_eq_collect]
    obtain ⟨k, hk⟩ := identity_of_passesValidation L st b hb
    obtain ⟨h1, h2⟩ := loopBody_fresh L st [] b k hb hk rfl
    rw [collect_cons_send L st [] b [] k h1 h2]
    rfl

/-- C15: a valid reply with a non-empty `USN` and a valid reply without `USN`
whose resolved `Location` string equals that `USN` have the same key: in either
order the second of the two is dropped as a duplicate, although they do not
share an identity in the sense of the specification. -/
theorem C15_shared_key_space (L : Net) (st : String) (a b : Response) (lb : URL)
    (hva : passesValidation L st a) (hvb : passesValidation L st b)
    (hua : Header.Get L a.Header "USN" ≠ "") (hub : Header.Get L b.Header "USN" = "")
    (hlb : b.Location L = .ok lb) (hstr : L.urlString lb = Header.Get L a.Header "USN") :
    delivered L st [a, b] = [a] ∧ delivered L st [b, a] = [b] ∧
    deliveredAt L st [a, b] 1 = false ∧ deliveredAt L st [b, a] 1 = false ∧
    ¬ sameIdentity L a b ∧ ¬ sameIdentity L b a ∧
    Header.Get L a.Header "USN" ≠ Header.Get L b.Header "USN" := by
  have hka : identity L a = some (Header.Get L a.Header "USN") := by
    unfold identity
    rw [if_pos hua]
  have hkb : identity L b = some (Header.Get L a.Header "USN") := by
    rw [← hstr]; exact identity_of_empty_usn L b lb hub hlb
  refine ⟨delivered_pair_same_key L st a b _ hva hvb hka hkb,
    delivered_pair_same_key L st b a _ hvb hva hkb hka, ?_, ?_, ?_, ?_, ?_⟩
  · exact not_deliveredAt_after_valid L st [a, b] 0 1 a b _ (by omega) rfl rfl hva hka
      (fun kb h => by rw [hkb] at h; exact (Option.some.inj h).symm)
  · exact not_deliveredAt_after_valid L st [b, a] 0 1 b a _ (by omega) rfl rfl hvb hkb
      (fun kb h => by rw [hka] at h; exact (Option.some.inj h).symm)
  · rintro (⟨_, heq⟩ | ⟨hea, _⟩)
    · rw [hub] at heq; exact hua heq
    · exact hua hea
  · rintro (⟨hne, _⟩ | ⟨_, hea, _⟩)
    · exact hne hub
    · exact hua hea
  · rw [hub]; exact hua

/-- C15 on a reply with `USN` "http://a/d.xml" and a reply without `USN` whose
`Location` is "http://a/d.xml". -/
theorem C15_shared_key_space_witness :
    passesValidation sampleNet "t" (sampleReply "t" "http://a/d.xml" "http://b/x.xml") ∧
    passesValidation sampleNet "t" (sampleReplyNoUSN "t" "http://a/d.xml") ∧
    (delivered sampleNet "t"
        [sampleReply "t" "http://a/d.xml" "http://b/x.xml",
         sampleReplyNoUSN "t" "http://a/d.xml"] =
        [sampleReply "t" "http://a/d.xml" "http://b/x.xml"] ∧
      delivered sampleNet "t"
        [sampleReplyNoUSN "t" "http://a/d.xml",
         sampleReply "t" "http://a/d.xml" "http://b/x.xml"] =
        [sampleReplyNoUSN "t" "http://a/d.xml"] ∧
      deliveredAt sampleNet "t"
        [sampleReply "t" "http://a/d.xml" "http://b/x.xml",
         sampleReplyNoUSN "t" "http://a/d.xml"] 1 = false ∧
      deliveredAt sampleNet "t"
        [sampleReplyNoUSN "t" "http://a/d.xml",
         sampleReply "t" "http://a/d.xml" "http://b/x.xml"] 1 = false ∧
      ¬ sameIdentity sampleNet (sampleReply "t" "http://a/d.xml" "http://b/x.xml")
        (sampleReplyNoUSN "t" "http://a/d.xml") ∧
      ¬ sameIdentity sampleNet (sampleReplyNoUSN "t" "http://a/d.xml")
        (sampleReply "t" "http://a/d.xml" "http://b/x.xml") ∧
      Header.Get sampleNet (sampleReply "t" "http://a/d.xml" "http://b/x.xml").Header "USN" ≠
        Header.Get sampleNet (sampleReplyNoUSN "t" "http://a/d.xml").Header "USN") :=
  ⟨by decide, by decide,
    C15_shared_key_space sampleNet "t" (sampleReply "t" "http://a/d.xml" "http://b/x.xml")
      (sampleReplyNoUSN "t" "http://a/d.xml") { Scheme := "http", Host := "a/d.xml" }
      (by decide) (by decide) (by decide) (by decide) rfl (by decide)⟩

/-- Replies that are all valid, with pairwise different identities none of which
is a key of the seen set, are all sent. -/
theorem collect_fixed (L : Net) (st : String) (ys : List Response) :
    ∀ seen : SeenMap, (∀ r ∈ ys, passesValidation L st r) → (ys.map (identity L)).Nodup →
      (∀ r ∈ ys, ∀ k, identity L r = some k → seen.has k = false) →
      (collect L st seen ys).2 = ys := by
  induction ys with
  | nil => intro seen _ _ _; rfl
  | cons y ys ih =>
    intro seen hv hnd hfresh
    obtain ⟨k, hk⟩ := identity_of_passesValidation L st y (hv y (List.mem_cons_self y ys))
    have hs := hfresh y (List.mem_cons_self y ys) k hk
    obtain ⟨h1, h2⟩ := loopBody_fresh L st seen y k (hv y (List.mem_cons_self y ys)) hk hs
    rw [collect_cons_send L st seen y ys k h1 h2]
    simp only [List.map_cons, List.nodup_cons] at hnd
    have hrest := ih (seen.set k true)
      (fun r hr => hv r (List.mem_cons_of_mem y hr)) hnd.2
      (fun r hr k' hk' => by
        rw [SeenMap.has_set, hfresh r (List.mem_cons_of_mem y hr) k' hk']
        have hne : k' ≠ k := by
          rintro rfl
          exact hnd.1 (List.mem_map.mpr ⟨r, hr, by rw [hk', hk]⟩)
        simpa using hne)
    simp only [hrest]

/-- C16: running the filter, with a fresh seen set and the same search target,
on its own output returns that output unchanged. -/
theorem C16_filter_idempotent (L : Net) (st : String) (raw : List Response) :
    delivered L st (delivered L st raw) = delivered L st raw := by
  rw [delivered_eq_collect L st (delivered L st raw)]
  apply collect_fixed
  · intro r hr
    rw [delivered_eq_collect] at hr
    exact (collect_mem L st [] raw r hr).1
  · rw [delivered_eq_collect]
    exact collect_nodup L st [] raw
  · intro r _ k _
    rfl

/-- C17: the search target is not validated. With `maxWaitSeconds ≥ 1` and a
transport that starts, the call with the empty search target returns an output
channel; a reply with status 200, a `Location` that resolves and no `ST` header
reads as `ST` empty, passes validation, is sent whenever its identity is not a
key of the seen set, and is delivered when it is the only raw reply. -/
theorem C17_empty_search_target (L : Net) (httpu : HTTPUClient) (m n : Int)
    (raw : List Response) (r : Response) (hm : 1 ≤ m)
    (hdo : httpu.Do (searchRequest "" m) (searchTimeout m) n = .ok raw)
    (h200 : r.StatusCode = 200)
    (hst : r.Header.lookup (L.canonicalMIMEHeaderKey "ST") = none)
    (hloc : locationResolves L r = true) :
    (∃ w, (SSDPRawSearch httpu "" m n).ret = .ok w) ∧
    (SSDPRawSearch httpu "" m n).output L "" = some (delivered L "" raw) ∧
    Header.Get L r.Header "ST" = "" ∧ passesValidation L "" r ∧
    (∀ (seen : SeenMap) (k : String), identity L r = some k → seen.has k = false →
      (loopBody L "" seen r).sent = some r) ∧
    (raw = [r] → (SSDPRawSearch httpu "" m n).output L "" = some [r]) := by
  have hget : Header.Get L r.Header "ST" = "" := by
    unfold Header.Get
    rw [hst]
  have hv : passesValidation L "" r := ⟨h200, hget, hloc⟩
  refine ⟨⟨spawn raw, ret_of_ok httpu "" m n raw hm hdo⟩,
    output_of_ok L httpu "" m n raw hm hdo, hget, hv, ?_, ?_⟩
  · intro seen k hk hs
    exact (loopBody_fresh L "" seen r k hv hk hs).1
  · intro hraw
    rw [output_of_ok L httpu "" m n raw hm hdo, hraw, delivered_eq_collect]
    obtain ⟨k, hk⟩ := identity_of_passesValidation L "" r hv
    obtain ⟨h1, h2⟩ := loopBody_fresh L "" [] r k hv hk rfl
    rw [collect_cons_send L "" [] r [] k h1 h2]
    rfl

/-- C17 on a transport yielding one reply with status 200, a `Location` and no
`ST` header, searched with the empty target. -/
theorem C17_empty_search_target_witness :
    (1 : Int) ≤ 2 ∧
    (sampleTransport [sampleReplyNoST "http://a/d.xml"]).Do (searchRequest "" 2)
      (searchTimeout 2) 3 = .ok [sampleReplyNoST "http://a/d.xml"] ∧
    (sampleReplyNoST "http://a/d.xml").StatusCode = 200 ∧
    (sampleReplyNoST "http://a/d.xml").Header.lookup (sampleNet.canonicalMIMEHeaderKey "ST") =
      none ∧
    locationResolves sampleNet (sampleReplyNoST "http://a/d.xml") = true ∧
    (∃ w, (SSDPRawSearch (sampleTransport [sampleReplyNoST "http://a/d.xml"]) "" 2 3).ret =
      .ok w) ∧
    (SSDPRawSearch (sampleTransport [sampleReplyNoST "http://a/d.xml"]) "" 2 3).output
      sampleNet "" = some (delivered sampleNet "" [sampleReplyNoST "http://a/d.xml"]) ∧
    Header.Get sampleNet (sampleReplyNoST "http://a/d.xml").Header "ST" = "" ∧
    passesValidation sampleNet "" (sampleReplyNoST "http://a/d.xml") ∧
    (∀ (seen : SeenMap) (k : String),
      identity sampleNet (sampleReplyNoST "http://a/d.xml") = some k → seen.has k = false →
      (loopBody sampleNet "" seen (sampleReplyNoST "http://a/d.xml")).sent =
        some (sampleReplyNoST "http://a/d.xml")) ∧
    ([sampleReplyNoST "http://a/d.xml"] = [sampleReplyNoST "http://a/d.xml"] →
      (SSDPRawSearch (sampleTransport [sampleReplyNoST "http://a/d.xml"]) "" 2 3).output
        sampleNet "" = some [sampleReplyNoST "http://a/d.xml"]) :=
  ⟨by decide, rfl, by decide, by decide, by decide,
    C17_empty_search_target sampleNet (sampleTransport [sampleReplyNoST "http://a/d.xml"]) 2 3
      [sampleReplyNoST "http://a/d.xml"] (sampleReplyNoST "http://a/d.xml")
      (by decide) rfl (by decide) (by decide) (by decide)⟩

end ssdp
